import Mathlib

/-!
Shallow embedding of the layered memory subsystem
(`layered_memory_system.py`): MemoryItem, ShortTermMemory (working
memory: bounded ring buffer plus side lookup table), LongTermMemory
(persistent memory: primary map, tag/kind indices, durable records) and
LayeredMemorySystem (the orchestrator with its consolidation rules).

Conventions of the embedding:
* timestamps are rationals, measured in minutes;
* importance, decay rates and scores are rationals (exact arithmetic
  standing for the floating point of the source);
* Python dictionaries become association lists (insertion order kept,
  assignment replaces the value in place);
* Python sets of ids become duplicate-free lists (`bucketAdd` only adds
  an absent element, as `set.add` does on the membership level);
* the filesystem directory of durable records becomes the `storage`
  association list inside `LongTermMemory`;
* a search that would raise `ZeroDivisionError` in the source returns
  `none`; a completed search returns `some results`.
-/

namespace Nexus

/-! ### Association list helpers (Python dict on the observable level) -/

/-- Keys of an association list, in order. -/
def keysOf {α : Type} (m : List (String × α)) : List String :=
  m.map Prod.fst

/-- Python `d[k]` as an optional lookup: first entry with the key. -/
def lookupId {α : Type} (m : List (String × α)) (k : String) : Option α :=
  match m with
  | [] => none
  | p :: t => if p.1 = k then some p.2 else lookupId t k

/-- Python `d[k] = v`: replace in place when the key exists, else append. -/
def upsert {α : Type} (m : List (String × α)) (k : String) (v : α) :
    List (String × α) :=
  match m with
  | [] => [(k, v)]
  | p :: t => if p.1 = k then (k, v) :: t else p :: upsert t k v

/-! ### Index buckets (Python `Dict[str, Set[str]]`) -/

/-- The id set stored under key `k`; the empty set when the key is absent. -/
def bucketGet (idx : List (String × List String)) (k : String) : List String :=
  (lookupId idx k).getD []

/-- `if k not in idx: idx[k] = set()` followed by `idx[k].add id`. -/
def bucketAdd (idx : List (String × List String)) (k id : String) :
    List (String × List String) :=
  match idx with
  | [] => [(k, [id])]
  | p :: t =>
    if p.1 = k then (p.1, if id ∈ p.2 then p.2 else p.2 ++ [id]) :: t
    else p :: bucketAdd t k id

/-- `if k in idx: idx[k].discard id` (no change when the key is absent). -/
def bucketDiscard (idx : List (String × List String)) (k id : String) :
    List (String × List String) :=
  match idx with
  | [] => []
  | p :: t =>
    if p.1 = k then (p.1, p.2.filter (fun x => decide (x ≠ id))) :: t
    else p :: bucketDiscard t k id

/-! ### The data model -/

/-- `MemoryItem` of the source, with `context` as an opaque key/value list. -/
structure MemoryItem where
  memory_id : String
  content : String
  memory_type : String
  importance : ℚ
  access_count : Nat
  created_at : ℚ
  last_accessed : ℚ
  decay_rate : ℚ
  tags : List String
  context : List (String × String)
  deriving DecidableEq, Repr

/-- `ConsolidationRule`; an empty `required_tags` means no tag condition,
matching the falsy test `if rule.required_tags:` of the source. -/
structure ConsolidationRule where
  min_access_count : Nat
  min_importance : ℚ
  min_age_hours : ℚ
  required_tags : List String
  deriving DecidableEq, Repr

/-- The item built by `ShortTermMemory.store`: the id (a content/timestamp
hash in the source) and the clock reading are explicit inputs here. -/
def mkItem (id : String) (now : ℚ) (content : String) (memory_type : String)
    (importance : ℚ) (tags : List String) (context : List (String × String)) :
    MemoryItem :=
  { memory_id := id
    content := content
    memory_type := memory_type
    importance := importance
    access_count := 1
    created_at := now
    last_accessed := now
    decay_rate := 1/10
    tags := tags
    context := context }

/-! ### ShortTermMemory (working memory) -/

/-- Keep the last `n` elements: the observable content of a Python
`deque(maxlen = n)` after an append. -/
def rtake {α : Type} (n : Nat) (l : List α) : List α :=
  (l.reverse.take n).reverse

/-- Working memory: bounded ring buffer `items` plus side table `item_map`. -/
structure ShortTermMemory where
  max_capacity : Nat
  retention_minutes : ℚ
  items : List MemoryItem
  item_map : List (String × MemoryItem)
  deriving DecidableEq, Repr

namespace ShortTermMemory

/-- A fresh working memory, as built by `__init__`. -/
def init (max_capacity : Nat) (retention_minutes : ℚ) : ShortTermMemory :=
  { max_capacity := max_capacity
    retention_minutes := retention_minutes
    items := []
    item_map := [] }

/-- `_cleanup_expired`: drop side table entries older than the retention
window (strict comparison, as in the source). -/
def cleanupExpired (s : ShortTermMemory) (now : ℚ) : ShortTermMemory :=
  { s with
    item_map :=
      s.item_map.filter (fun p =>
        decide (¬ now - p.2.created_at > s.retention_minutes)) }

/-- `ShortTermMemory.store`: build the item, append to the ring buffer
(the deque silently drops the oldest beyond capacity), record it in the
side table, then run the passive expiry sweep. -/
def store (s : ShortTermMemory) (id : String) (now : ℚ) (content : String)
    (memory_type : String) (importance : ℚ) (tags : List String)
    (context : List (String × String)) : MemoryItem × ShortTermMemory :=
  let item := mkItem id now content memory_type importance tags context
  let s1 : ShortTermMemory :=
    { s with
      items := rtake s.max_capacity (s.items ++ [item])
      item_map := upsert s.item_map id item }
  (item, cleanupExpired s1 now)

/-- The field updates `retrieve` performs on a found item. -/
def bumpItem (it : MemoryItem) (now : ℚ) : MemoryItem :=
  { it with
    access_count := it.access_count + 1
    last_accessed := now
    importance := min 1 (it.importance + 1/20) }

/-- `ShortTermMemory.retrieve`: side table lookup; on a hit the item object
is mutated in place, so the update is visible through the side table and
through the ring buffer positions holding the same item. -/
def retrieve (s : ShortTermMemory) (id : String) (now : ℚ) :
    Option MemoryItem × ShortTermMemory :=
  match lookupId s.item_map id with
  | none => (none, s)
  | some it =>
    let it2 := bumpItem it now
    (some it2,
      { s with
        item_map := upsert s.item_map id it2
        items := s.items.map (fun x => if x.memory_id = id then it2 else x) })

/-- `get_all`: the ring buffer contents. -/
def getAll (s : ShortTermMemory) : List MemoryItem :=
  s.items

end ShortTermMemory

/-! ### Lexical scoring (`str.lower`, `str.split`, `str.count`, `in`) -/

/-- `str.lower` on the character level. -/
def toLowerL (l : List Char) : List Char :=
  l.map Char.toLower

/-- `len(s.split())`: the number of maximal whitespace-free runs. -/
def wordCount (l : List Char) : Nat :=
  (l.foldl
    (fun st c =>
      if c.isWhitespace then (false, st.2)
      else (true, if st.1 then st.2 else st.2 + 1))
    ((false : Bool), (0 : Nat))).2

/-- Python `sub in s` on character lists. -/
def containsSub (sub : List Char) : List Char → Bool
  | [] => sub.isEmpty
  | c :: rest => sub.isPrefixOf (c :: rest) || containsSub sub rest

/-- Counting loop of `str.count` for a nonempty pattern: non-overlapping
occurrences, scanning from the left. -/
def countOccsFrom (sub : List Char) : List Char → Nat
  | [] => 0
  | c :: rest =>
    if sub.isPrefixOf (c :: rest) ∧ sub ≠ [] then
      countOccsFrom sub (rest.drop (sub.length - 1)) + 1
    else
      countOccsFrom sub rest
termination_by l => l.length
decreasing_by
  · simp only [List.length_cons, List.length_drop]
    omega
  · simp

/-- `s.count(sub)`: an empty pattern is counted `len(s) + 1` times. -/
def countOccs (sub s : List Char) : Nat :=
  if sub = [] then s.length + 1 else countOccsFrom sub s

/-- Lowercased characters of a string. -/
def lowChars (s : String) : List Char :=
  toLowerL s.data

/-- The case-insensitive substring test both search loops guard with. -/
def matchesQuery (query content : String) : Bool :=
  containsSub (lowChars query) (lowChars content)

/-- `occurrences / wordCount`, the relevance ratio of both search loops
(total division; the zero-divisor case is reported by the caller). -/
def relevanceOf (query content : String) : ℚ :=
  (countOccs (lowChars query) (lowChars content) : ℚ) /
    (wordCount content.data : ℚ)

/-- Stable insertion of `a` into a list sorted descending by `key`:
`a` stays in front of elements whose key does not exceed its own. -/
def insertDescBy {α : Type} (key : α → ℚ) (a : α) : List α → List α
  | [] => [a]
  | b :: bs => if key a < key b then b :: insertDescBy key a bs else a :: b :: bs

/-- Stable descending sort by a rational key (Python `sort` with
`reverse=True` on the membership level). -/
def sortDescBy {α : Type} (key : α → ℚ) (l : List α) : List α :=
  l.foldr (insertDescBy key) []

/-- Python tuple comparison on rational pairs. -/
def pairLt (x y : ℚ × ℚ) : Bool :=
  decide (x.1 < y.1) || (decide (x.1 = y.1) && decide (x.2 < y.2))

/-- Stable insertion for the descending sort on a pair key. -/
def insertDescByPair {α : Type} (key : α → ℚ × ℚ) (a : α) : List α → List α
  | [] => [a]
  | b :: bs =>
    if pairLt (key a) (key b) then b :: insertDescByPair key a bs
    else a :: b :: bs

/-- Stable descending sort by a pair key, matching Python tuple order. -/
def sortDescByPair {α : Type} (key : α → ℚ × ℚ) (l : List α) : List α :=
  l.foldr (insertDescByPair key) []

/-- `ShortTermMemory.search`: scan the ring buffer only; a matched item
with zero words makes the source raise `ZeroDivisionError`, reported here
as `none`. -/
def ShortTermMemory.search (s : ShortTermMemory) (query : String)
    (top_k : Nat) : Option (List MemoryItem) :=
  let matched := s.items.filter (fun it => matchesQuery query it.content)
  if matched.any (fun it => wordCount it.content.data == 0) then none
  else
    some (((sortDescBy
      (fun it => relevanceOf query it.content * it.importance)
      matched).take top_k))

/-! ### LongTermMemory (persistent memory) -/

/-- Persistent memory: primary map `index`, the two secondary indices,
and `storage`, the directory of durable per-id records. -/
structure LongTermMemory where
  index : List (String × MemoryItem)
  tag_index : List (String × List String)
  type_index : List (String × List String)
  storage : List (String × MemoryItem)
  deriving DecidableEq, Repr

namespace LongTermMemory

/-- A persistent memory over an empty storage directory. -/
def empty : LongTermMemory :=
  { index := [], tag_index := [], type_index := [], storage := [] }

/-- `LongTermMemory.store`: upsert the primary map, persist the record,
and add the id to the bucket of every tag and of the kind. -/
def store (m : LongTermMemory) (item : MemoryItem) : LongTermMemory :=
  { index := upsert m.index item.memory_id item
    storage := upsert m.storage item.memory_id item
    tag_index :=
      item.tags.foldl (fun ti tag => bucketAdd ti tag item.memory_id)
        m.tag_index
    type_index := bucketAdd m.type_index item.memory_type item.memory_id }

/-- The field updates `retrieve` performs on a found item. -/
def bumpAccess (it : MemoryItem) (now : ℚ) : MemoryItem :=
  { it with access_count := it.access_count + 1, last_accessed := now }

/-- `LongTermMemory.retrieve`: on a hit bump `access_count`, refresh
`last_accessed` and re-persist the record. -/
def retrieve (m : LongTermMemory) (id : String) (now : ℚ) :
    Option MemoryItem × LongTermMemory :=
  match lookupId m.index id with
  | none => (none, m)
  | some it =>
    (some (bumpAccess it now),
      { m with
        index := upsert m.index id (bumpAccess it now)
        storage := upsert m.storage id (bumpAccess it now) })

/-- Union of the id buckets of the requested tags (`tag_matches` in the
source, on the membership level). -/
def tagMatches (m : LongTermMemory) (tags : List String) : List String :=
  tags.foldl
    (fun acc t => acc ++ (bucketGet m.tag_index t).filter (fun x => decide (x ∉ acc)))
    []

/-- The candidate id list of `search` after the tag and kind filters.
Empty-list `tags` and empty-string `memory_type` stand for the absent
(falsy) arguments of the source. -/
def searchCandidates (m : LongTermMemory) (tags : List String)
    (memory_type : String) : List String :=
  let c0 := keysOf m.index
  let c1 :=
    if tags = [] then c0
    else c0.filter (fun id => decide (id ∈ tagMatches m tags))
  if memory_type ≠ "" ∧ memory_type ∈ keysOf m.type_index then
    c1.filter (fun id => decide (id ∈ bucketGet m.type_index memory_type))
  else c1

/-- `LongTermMemory.search`: filter candidates, apply the importance
floor, then either rank by query score or by `(importance, access_count)`.
A matched item with zero words makes the source raise
`ZeroDivisionError`, reported here as `none`. -/
def search (m : LongTermMemory) (query : String) (tags : List String)
    (memory_type : String) (min_importance : ℚ) (top_k : Nat) :
    Option (List MemoryItem) :=
  let items0 := (searchCandidates m tags memory_type).filterMap
    (fun id => lookupId m.index id)
  let items := items0.filter (fun it => decide (it.importance ≥ min_importance))
  if query ≠ "" then
    let matched := items.filter (fun it => matchesQuery query it.content)
    if matched.any (fun it => wordCount it.content.data == 0) then none
    else
      some ((sortDescBy
        (fun it =>
          relevanceOf query it.content * it.importance *
            (1 + (it.access_count : ℚ) * (1/10)))
        matched).take top_k)
  else
    some ((sortDescByPair
      (fun it => (it.importance, (it.access_count : ℚ))) items).take top_k)

/-- The removal condition of `prune`: decayed importance below the floor
(using the floored day count of `timedelta.days`) or age beyond the
maximum (exact timedelta comparison). -/
def pruneCond (min_importance : ℚ) (max_age_days : Nat) (now : ℚ)
    (it : MemoryItem) : Prop :=
  it.importance *
      (1 - it.decay_rate * ((⌊(now - it.created_at) / 1440⌋ : ℚ) / 365)) <
    min_importance ∨
  now - it.created_at > (max_age_days : ℚ) * 1440

instance (mi : ℚ) (ma : Nat) (now : ℚ) (it : MemoryItem) :
    Decidable (pruneCond mi ma now it) := by
  unfold pruneCond; infer_instance

/-- `LongTermMemory.prune`: remove every item meeting the condition from
the primary map, from the buckets of its tags and kind, and from durable
storage; return the removal count. -/
def prune (m : LongTermMemory) (min_importance : ℚ) (max_age_days : Nat)
    (now : ℚ) : LongTermMemory × Nat :=
  let rem := m.index.filter (fun p => decide (pruneCond min_importance max_age_days now p.2))
  let remIds := keysOf rem
  ({ index := m.index.filter (fun p => decide (p.1 ∉ remIds))
     storage := m.storage.filter (fun p => decide (p.1 ∉ remIds))
     tag_index :=
       rem.foldl
         (fun ti p => p.2.tags.foldl (fun ti2 t => bucketDiscard ti2 t p.1) ti)
         m.tag_index
     type_index :=
       rem.foldl (fun ty p => bucketDiscard ty p.2.memory_type p.1)
         m.type_index },
   rem.length)

/-- `_load_memories` over an existing storage directory: rebuild the
primary map and both secondary indices from the durable records. -/
def load (storage : List (String × MemoryItem)) : LongTermMemory :=
  storage.foldl
    (fun m p =>
      { m with
        index := upsert m.index p.2.memory_id p.2
        tag_index :=
          p.2.tags.foldl (fun ti tag => bucketAdd ti tag p.2.memory_id)
            m.tag_index
        type_index := bucketAdd m.type_index p.2.memory_type p.2.memory_id })
    { index := [], tag_index := [], type_index := [], storage := storage }

end LongTermMemory

/-! ### LayeredMemorySystem (the orchestrator) -/

/-- The orchestrator state: both tiers plus the ordered rule list. -/
structure LayeredMemorySystem where
  short_term : ShortTermMemory
  long_term : LongTermMemory
  consolidation_rules : List ConsolidationRule
  deriving DecidableEq, Repr

namespace LayeredMemorySystem

/-- The default rule list of `__init__`. -/
def defaultRules : List ConsolidationRule :=
  [ { min_access_count := 2, min_importance := 7/10, min_age_hours := 1/2,
      required_tags := [] },
    { min_access_count := 5, min_importance := 1/2, min_age_hours := 1,
      required_tags := [] } ]

/-- A fresh system over an empty storage directory. -/
def init (stm_capacity : Nat) (stm_retention_minutes : ℚ) :
    LayeredMemorySystem :=
  { short_term := ShortTermMemory.init stm_capacity stm_retention_minutes
    long_term := LongTermMemory.empty
    consolidation_rules := defaultRules }

/-- `LayeredMemorySystem.store`: always store into working memory; mirror
into persistent memory when forced or when importance reaches 0.8. -/
def store (sys : LayeredMemorySystem) (id : String) (now : ℚ)
    (content : String) (memory_type : String) (importance : ℚ)
    (tags : List String) (context : List (String × String))
    (force_long_term : Bool) : MemoryItem × LayeredMemorySystem :=
  let r := sys.short_term.store id now content memory_type importance tags context
  let lt :=
    if force_long_term = true ∨ importance ≥ 8/10 then
      sys.long_term.store r.1
    else sys.long_term
  (r.1, { sys with short_term := r.2, long_term := lt })

/-- A rule qualifies an item when the access, importance and age floors
hold and, when `required_tags` is nonempty, some required tag is carried. -/
def ruleQualifies (now : ℚ) (it : MemoryItem) (r : ConsolidationRule) : Prop :=
  it.access_count ≥ r.min_access_count ∧
  it.importance ≥ r.min_importance ∧
  (now - it.created_at) / 60 ≥ r.min_age_hours ∧
  (r.required_tags = [] ∨ ∃ t ∈ r.required_tags, t ∈ it.tags)

instance (now : ℚ) (it : MemoryItem) (r : ConsolidationRule) :
    Decidable (ruleQualifies now it r) := by
  unfold ruleQualifies; infer_instance

/-- One item of the consolidation loop: on the first qualifying rule,
promote the item unless its id is already present in persistent memory. -/
def consolidateStep (rules : List ConsolidationRule) (now : ℚ)
    (acc : LongTermMemory × Nat) (it : MemoryItem) : LongTermMemory × Nat :=
  match rules.find? (fun r => decide (ruleQualifies now it r)) with
  | none => acc
  | some _ =>
    if it.memory_id ∈ keysOf acc.1.index then acc
    else (acc.1.store it, acc.2 + 1)

/-- `consolidate_memories`: walk the current working memory contents and
promote qualifying items; return the new persistent memory and the count. -/
def consolidate (sys : LayeredMemorySystem) (now : ℚ) :
    LayeredMemorySystem × Nat :=
  let r := sys.short_term.getAll.foldl
    (consolidateStep sys.consolidation_rules now) (sys.long_term, 0)
  ({ sys with long_term := r.1 }, r.2)

end LayeredMemorySystem

/-! ### Derived definitions used by the verification -/

/-- The caller-chosen arguments of one `store` call, together with the
id and clock reading the source draws from its environment. -/
structure StoreArgs where
  id : String
  now : ℚ
  content : String
  memory_type : String
  importance : ℚ
  tags : List String
  context : List (String × String)
  deriving DecidableEq, Repr

/-- The item a `store` call with these arguments creates. -/
def StoreArgs.item (a : StoreArgs) : MemoryItem :=
  mkItem a.id a.now a.content a.memory_type a.importance a.tags a.context

/-- A sequence of `ShortTermMemory.store` calls. -/
def ShortTermMemory.storeMany (s : ShortTermMemory) (args : List StoreArgs) :
    ShortTermMemory :=
  args.foldl
    (fun st a =>
      (st.store a.id a.now a.content a.memory_type a.importance a.tags
        a.context).2)
    s

/-- The state after a `ShortTermMemory.retrieve` call. -/
def ShortTermMemory.retrieveState (s : ShortTermMemory) (id : String)
    (now : ℚ) : ShortTermMemory :=
  (s.retrieve id now).2

/-- The operations of the `LongTermMemory` interface, for stating state
invariants over operation sequences.  `reload` models a process restart:
`__init__` rebuilding the in-memory maps from the storage directory. -/
inductive LtmOp where
  | storeOp (item : MemoryItem)
  | retrieveOp (id : String) (now : ℚ)
  | pruneOp (min_importance : ℚ) (max_age_days : Nat) (now : ℚ)
  | reload
  deriving Repr

/-- Execute one operation on a persistent memory state. -/
def LtmOp.exec (m : LongTermMemory) : LtmOp → LongTermMemory
  | .storeOp item => m.store item
  | .retrieveOp id now => (m.retrieve id now).2
  | .pruneOp mi ma now => (m.prune mi ma now).1
  | .reload => LongTermMemory.load m.storage

/-- Execute a sequence of operations from a starting state. -/
def runOps (m : LongTermMemory) (ops : List LtmOp) : LongTermMemory :=
  ops.foldl LtmOp.exec m

/-- The items handed to `store` operations within a sequence. -/
def storedItems (ops : List LtmOp) : List MemoryItem :=
  ops.filterMap (fun op =>
    match op with
    | .storeOp item => some item
    | _ => none)

/-- The index-consistency invariant of the specification, word for word:
every id in a tag or kind bucket is a key of the primary map, and every
indexed item's id sits in the bucket of each of its tags and of its kind. -/
def consistentIndices (m : LongTermMemory) : Prop :=
  (∀ t id, id ∈ bucketGet m.tag_index t → id ∈ keysOf m.index) ∧
  (∀ k id, id ∈ bucketGet m.type_index k → id ∈ keysOf m.index) ∧
  (∀ p ∈ m.index,
    (∀ t ∈ p.2.tags, p.1 ∈ bucketGet m.tag_index t) ∧
    p.1 ∈ bucketGet m.type_index p.2.memory_type)

/-- The tight form of index consistency the operations actually maintain:
bucket membership holds exactly for the tags/kind of the currently mapped
item, keys agree with the stored item ids, and keys are duplicate free. -/
def tightIndices (m : LongTermMemory) : Prop :=
  (∀ t id, id ∈ bucketGet m.tag_index t ↔
    ∃ it, lookupId m.index id = some it ∧ t ∈ it.tags) ∧
  (∀ k id, id ∈ bucketGet m.type_index k ↔
    ∃ it, lookupId m.index id = some it ∧ it.memory_type = k) ∧
  (∀ p ∈ m.index, p.1 = p.2.memory_id) ∧
  (keysOf m.index).Nodup

/-- Two items are index-compatible when sharing an id forces them to
share their tags and kind (fresh ids satisfy this vacuously). -/
def itemCompat (a b : MemoryItem) : Prop :=
  a.memory_id = b.memory_id → (a.tags = b.tags ∧ a.memory_type = b.memory_type)

/-- An item shape is covered by a pool of stored items when some pool
item shares its id, tags and kind. -/
def inPool (pool : List MemoryItem) (it : MemoryItem) : Prop :=
  ∃ src ∈ pool, src.memory_id = it.memory_id ∧ src.tags = it.tags ∧
    src.memory_type = it.memory_type

/-- The inductive invariant carried across `LongTermMemory` operations:
tight index consistency, and every indexed or durable item drawn (in id,
tags and kind) from the pool of stored items. -/
def ltmInv (pool : List MemoryItem) (m : LongTermMemory) : Prop :=
  tightIndices m ∧
  (∀ p ∈ m.index, inPool pool p.2) ∧
  (∀ p ∈ m.storage, p.1 = p.2.memory_id ∧ inPool pool p.2)

/-! ### Concrete instances used by witnesses and counterexamples -/

/-- Store arguments for a four-item FIFO experiment. -/
def argA : StoreArgs :=
  { id := "idA", now := 0, content := "A", memory_type := "episodic",
    importance := 9/10, tags := [], context := [] }

/-- Second stored item of the FIFO experiment. -/
def argB : StoreArgs :=
  { id := "idB", now := 1, content := "B", memory_type := "episodic",
    importance := 1/10, tags := [], context := [] }

/-- Third stored item of the FIFO experiment. -/
def argC : StoreArgs :=
  { id := "idC", now := 2, content := "C", memory_type := "episodic",
    importance := 2/10, tags := [], context := [] }

/-- Fourth stored item of the FIFO experiment. -/
def argD : StoreArgs :=
  { id := "idD", now := 3, content := "D", memory_type := "episodic",
    importance := 3/10, tags := [], context := [] }

/-- An old, low-importance item for the pruning experiment: importance
0.2, decay rate 0.1, created at time 0, one tag. -/
def item7 : MemoryItem :=
  { memory_id := "p", content := "old fact", memory_type := "episodic",
    importance := 2/10, access_count := 1, created_at := 0,
    last_accessed := 0, decay_rate := 1/10, tags := ["t"], context := [] }

/-- A persistent memory holding only `item7`. -/
def ltm7 : LongTermMemory :=
  LongTermMemory.empty.store item7

/-- A lone episodic item for the kind-filter experiment. -/
def itemC2 : MemoryItem := mkItem "x" 0 "solo" "episodic" (1/2) [] []

/-- A persistent memory holding only `itemC2`, so that no item of kind
`semantic` was ever stored and the kind index has no `semantic` key. -/
def ltmC2 : LongTermMemory := LongTermMemory.empty.store itemC2

/-- A semantic item for the kind-filter witness. -/
def itemS : MemoryItem := mkItem "s" 0 "sem fact" "semantic" (1/2) [] []

/-- An episodic item for the kind-filter witness. -/
def itemE : MemoryItem := mkItem "e" 0 "epi fact" "episodic" (1/2) [] []

/-- A persistent memory holding one semantic and one episodic item. -/
def ltmW2 : LongTermMemory :=
  (LongTermMemory.empty.store itemS).store itemE

/-- Item X of the tag-union experiment: tag a only. -/
def itemX6 : MemoryItem := mkItem "x6" 0 "xc" "episodic" (1/2) ["a"] []

/-- Item Y of the tag-union experiment: tag b only. -/
def itemY6 : MemoryItem := mkItem "y6" 0 "yc" "episodic" (1/2) ["b"] []

/-- Item Z of the tag-union experiment: both tags. -/
def itemZ6 : MemoryItem := mkItem "z6" 0 "zc" "episodic" (1/2) ["a", "b"] []

/-- A persistent memory holding X, Y and Z. -/
def ltm6 : LongTermMemory :=
  ((LongTermMemory.empty.store itemX6).store itemY6).store itemZ6

/-- First stored item of the eviction-divergence experiment. -/
def argE9 : StoreArgs :=
  { id := "e", now := 0, content := "E", memory_type := "episodic",
    importance := 1/2, tags := [], context := [] }

/-- Second stored item of the eviction-divergence experiment. -/
def argF9 : StoreArgs :=
  { id := "f", now := 1, content := "F", memory_type := "episodic",
    importance := 1/2, tags := [], context := [] }

/-- Overflowing store of the eviction-divergence experiment. -/
def argG9 : StoreArgs :=
  { id := "g", now := 5, content := "G", memory_type := "episodic",
    importance := 1/2, tags := [], context := [] }

/-- A working memory of capacity 2 filled with E and F. -/
def stm9 : ShortTermMemory :=
  (ShortTermMemory.init 2 30).storeMany [argE9, argF9]

/-- The state after the overflowing third store. -/
def stm9b : ShortTermMemory :=
  (stm9.store argG9.id argG9.now argG9.content argG9.memory_type
    argG9.importance argG9.tags argG9.context).2

/-- A working memory holding one item with empty content. -/
def stm10 : ShortTermMemory :=
  ((ShortTermMemory.init 5 30).store "n" 0 "" "episodic" (1/2) [] []).2

/-- A persistent memory holding one item whose content is a single
space: one query occurrence, zero words. -/
def ltm10 : LongTermMemory :=
  LongTermMemory.empty.store (mkItem "sp" 0 " " "episodic" (1/2) [] [])

/-- A system in which one item was stored at time 0 with importance 0.7
and then retrieved once (access count 2, importance 0.75): reachable
through the public operations, with no further stores. -/
def sysC3 : LayeredMemorySystem :=
  let s1 := ((LayeredMemorySystem.init 10 30).store "i" 0 "note" "episodic"
    (7/10) [] [] false).2
  { s1 with short_term := (s1.short_term.retrieve "i" 0).2 }

/-- First store of the index-consistency counterexample: id x, kind a. -/
def itemA8 : MemoryItem :=
  { memory_id := "x", content := "c", memory_type := "a", importance := 0,
    access_count := 1, created_at := 0, last_accessed := 0, decay_rate := 0,
    tags := [], context := [] }

/-- Second store of the counterexample: the same id, but kind b. -/
def itemB8 : MemoryItem :=
  { memory_id := "x", content := "c", memory_type := "b", importance := 0,
    access_count := 1, created_at := 0, last_accessed := 0, decay_rate := 0,
    tags := [], context := [] }

/-- Store x under kind a, overwrite it under kind b, then prune it away
(age 1441 minutes with a zero-day maximum). -/
def opsC8 : List LtmOp :=
  [LtmOp.storeOp itemA8, LtmOp.storeOp itemB8, LtmOp.pruneOp 0 0 1441]

/-- An operation sequence without id reuse: store, retrieve, prune. -/
def opsW8 : List LtmOp :=
  [LtmOp.storeOp itemA8, LtmOp.retrieveOp "x" 5, LtmOp.pruneOp 0 1000 10]

/-! ### Lemmas about the association list helpers -/

theorem lookupId_eq_none {α : Type} (m : List (String × α)) (k : String)
    (h : k ∉ keysOf m) : lookupId m k = none := by
  induction m with
  | nil => rfl
  | cons p t ih =>
    simp only [keysOf, List.map_cons, List.mem_cons, not_or] at h
    simp only [lookupId]
    rw [if_neg (fun hc => h.1 hc.symm)]
    exact ih (by simpa [keysOf] using h.2)

theorem mem_keysOf_of_lookupId {α : Type} {m : List (String × α)}
    {k : String} {v : α} (h : lookupId m k = some v) : k ∈ keysOf m := by
  induction m with
  | nil => simp [lookupId] at h
  | cons p t ih =>
    simp only [lookupId] at h
    by_cases hp : p.1 = k
    · simp [keysOf, hp]
    · rw [if_neg hp] at h
      simp [keysOf, List.mem_cons]
      right
      simpa [keysOf] using ih h

theorem lookupId_isSome_iff {α : Type} (m : List (String × α)) (k : String) :
    (lookupId m k).isSome = true ↔ k ∈ keysOf m := by
  induction m with
  | nil => simp [lookupId, keysOf]
  | cons p t ih =>
    simp only [lookupId, keysOf, List.map_cons, List.mem_cons]
    by_cases hp : p.1 = k
    · simp [hp]
    · rw [if_neg hp]
      simp only [keysOf] at ih
      rw [ih]
      constructor
      · intro h; right; exact h
      · rintro (h | h)
        · exact absurd h.symm hp
        · exact h

theorem lookupId_upsert_self {α : Type} (m : List (String × α)) (k : String)
    (v : α) : lookupId (upsert m k v) k = some v := by
  induction m with
  | nil => simp [upsert, lookupId]
  | cons p t ih =>
    simp only [upsert]
    by_cases hp : p.1 = k
    · rw [if_pos hp]; simp [lookupId]
    · rw [if_neg hp]
      simp only [lookupId]
      rw [if_neg hp]
      exact ih

theorem lookupId_upsert_ne {α : Type} (m : List (String × α)) (k k' : String)
    (v : α) (h : k' ≠ k) : lookupId (upsert m k v) k' = lookupId m k' := by
  induction m with
  | nil =>
    simp only [upsert, lookupId]
    rw [if_neg (fun hc => h hc.symm)]
  | cons p t ih =>
    simp only [upsert]
    by_cases hp : p.1 = k
    · rw [if_pos hp]
      simp only [lookupId]
      rw [if_neg (fun hc => h hc.symm),
        if_neg (fun hc => h (by rw [← hc]; exact hp))]
    · rw [if_neg hp]
      simp only [lookupId]
      by_cases hp' : p.1 = k'
      · rw [if_pos hp', if_pos hp']
      · rw [if_neg hp', if_neg hp']
        exact ih

theorem mem_keysOf_upsert {α : Type} (m : List (String × α)) (k k' : String)
    (v : α) : k' ∈ keysOf (upsert m k v) ↔ k' = k ∨ k' ∈ keysOf m := by
  induction m with
  | nil => simp [upsert, keysOf]
  | cons p t ih =>
    simp only [upsert]
    by_cases hp : p.1 = k
    · rw [if_pos hp]
      simp [keysOf, hp]
    · rw [if_neg hp]
      simp only [keysOf, List.map_cons, List.mem_cons] at ih ⊢
      rw [show (upsert t k v).map Prod.fst = keysOf (upsert t k v) from rfl] at *
      constructor
      · rintro (h | h)
        · right; left; exact h
        · rcases ih.mp h with h | h
          · left; exact h
          · right; right; simpa [keysOf] using h
      · rintro (h | h | h)
        · right; exact ih.mpr (Or.inl h)
        · left; exact h
        · right; exact ih.mpr (Or.inr (by simpa [keysOf] using h))

/-! ### Lemmas about index buckets -/

theorem bucketGet_of_not_mem (idx : List (String × List String)) (k : String)
    (h : k ∉ keysOf idx) : bucketGet idx k = [] := by
  simp [bucketGet, lookupId_eq_none idx k h]

theorem mem_bucketGet_bucketAdd (idx : List (String × List String))
    (k id k' id' : String) :
    id' ∈ bucketGet (bucketAdd idx k id) k' ↔
      (k' = k ∧ id' = id) ∨ id' ∈ bucketGet idx k' := by
  induction idx with
  | nil =>
    by_cases hc : k = k'
    · subst hc
      simp [bucketAdd, bucketGet, lookupId]
      try tauto
    · have hck : ¬ (k' = k) := fun h => hc h.symm
      simp [bucketAdd, bucketGet, lookupId, hc, hck]
  | cons p t ih =>
    simp only [bucketAdd]
    by_cases hp : p.1 = k
    · rw [if_pos hp]
      simp only [bucketGet, lookupId]
      by_cases hp' : p.1 = k'
      · rw [if_pos hp', if_pos hp']
        have hkk : k' = k := by rw [← hp', hp]
        by_cases hm : id ∈ p.2
        · simp only [if_pos hm, Option.getD_some, hkk, true_and]
          constructor
          · exact Or.inr
          · rintro (rfl | h)
            · exact hm
            · exact h
        · simp only [if_neg hm, Option.getD_some, hkk, true_and,
            List.mem_append, List.mem_singleton]
          constructor
          · rintro (h | rfl)
            · exact Or.inr h
            · exact Or.inl rfl
          · rintro (rfl | h)
            · exact Or.inr rfl
            · exact Or.inl h
      · rw [if_neg hp', if_neg hp']
        have hkk : ¬ k' = k := fun hc => hp' (hp.trans hc.symm)
        simp [hkk]
    · rw [if_neg hp]
      simp only [bucketGet, lookupId]
      by_cases hp' : p.1 = k'
      · rw [if_pos hp', if_pos hp']
        have hkk : ¬ k' = k := fun hc => hp (hp'.trans hc)
        simp [hkk]
      · rw [if_neg hp', if_neg hp']
        exact ih

theorem mem_bucketGet_bucketDiscard (idx : List (String × List String))
    (k id k' id' : String) :
    id' ∈ bucketGet (bucketDiscard idx k id) k' ↔
      id' ∈ bucketGet idx k' ∧ ¬(k' = k ∧ id' = id) := by
  induction idx with
  | nil => simp [bucketDiscard, bucketGet, lookupId]
  | cons p t ih =>
    simp only [bucketDiscard]
    by_cases hp : p.1 = k
    · rw [if_pos hp]
      simp only [bucketGet, lookupId]
      by_cases hp' : p.1 = k'
      · rw [if_pos hp', if_pos hp']
        have hkk : k' = k := by rw [← hp', hp]
        simp [List.mem_filter, hkk]
        try tauto
      · rw [if_neg hp', if_neg hp']
        have hkk : ¬ k' = k := fun hc => hp' (hp.trans hc.symm)
        simp [hkk]
    · rw [if_neg hp]
      simp only [bucketGet, lookupId]
      by_cases hp' : p.1 = k'
      · rw [if_pos hp', if_pos hp']
        have hkk : ¬ k' = k := fun hc => hp (hp'.trans hc)
        simp [hkk]
      · rw [if_neg hp', if_neg hp']
        exact ih

end Nexus

namespace Nexus

/-! ### Lemmas about the bounded ring buffer -/

theorem rtake_of_length_le {α : Type} {n : Nat} {l : List α}
    (h : l.length ≤ n) : rtake n l = l := by
  unfold rtake
  rw [List.take_of_length_le (by simpa using h), List.reverse_reverse]

theorem length_rtake {α : Type} (n : Nat) (l : List α) :
    (rtake n l).length = min n l.length := by
  simp [rtake]

theorem take_append_take {α : Type} (n : Nat) (a b : List α) :
    (a ++ b.take n).take n = (a ++ b).take n := by
  rw [List.take_append_eq_append_take, List.take_append_eq_append_take,
    List.take_take, Nat.min_eq_left (Nat.sub_le n a.length)]

theorem rtake_append_rtake {α : Type} (n : Nat) (l m : List α) :
    rtake n (rtake n l ++ m) = rtake n (l ++ m) := by
  unfold rtake
  rw [List.reverse_append, List.reverse_reverse, List.reverse_append]
  rw [take_append_take]

theorem rtake_succ_length {α : Type} {n : Nat} {x : α} {xs : List α}
    (h : xs.length = n) : rtake n (x :: xs) = xs := by
  unfold rtake
  rw [List.reverse_cons, List.take_append_of_le_length (by simpa using h.ge),
    List.take_of_length_le (by simpa using h.le), List.reverse_reverse]

theorem store_items (s : ShortTermMemory) (a : StoreArgs) :
    ((s.store a.id a.now a.content a.memory_type a.importance a.tags
      a.context).2).items = rtake s.max_capacity (s.items ++ [a.item]) := by
  simp [ShortTermMemory.store, ShortTermMemory.cleanupExpired, StoreArgs.item]

theorem store_max_capacity (s : ShortTermMemory) (a : StoreArgs) :
    ((s.store a.id a.now a.content a.memory_type a.importance a.tags
      a.context).2).max_capacity = s.max_capacity := by
  simp [ShortTermMemory.store, ShortTermMemory.cleanupExpired]

theorem storeMany_items (s : ShortTermMemory) (args : List StoreArgs)
    (h : s.items.length ≤ s.max_capacity) :
    (s.storeMany args).items =
      rtake s.max_capacity (s.items ++ args.map StoreArgs.item) := by
  induction args generalizing s with
  | nil =>
    simp only [ShortTermMemory.storeMany, List.foldl_nil, List.map_nil,
      List.append_nil]
    exact (rtake_of_length_le h).symm
  | cons a args ih =>
    have hstep : ShortTermMemory.storeMany s (a :: args) =
        ShortTermMemory.storeMany
          ((s.store a.id a.now a.content a.memory_type a.importance a.tags
            a.context).2) args := by
      simp [ShortTermMemory.storeMany]
    rw [hstep]
    rw [ih _ (by
      rw [store_items, store_max_capacity, length_rtake]
      exact Nat.min_le_left _ _)]
    rw [store_items, store_max_capacity, rtake_append_rtake]
    simp

end Nexus

namespace Nexus

/-! ### Claim C1: bounded FIFO eviction in working memory -/

/-- C1: storing `capacity + 1` items into an empty WorkingMemory leaves
exactly `capacity` items in the ring buffer, namely all but the first in
their original relative insertion order; the first-stored item (the single
oldest by insertion order) is gone, regardless of every importance value. -/
theorem workingMemory_capacity_fifo (cap : Nat) (ret : ℚ) (a0 : StoreArgs)
    (rest : List StoreArgs) (h : rest.length = cap) :
    ((ShortTermMemory.init cap ret).storeMany (a0 :: rest)).items =
      rest.map StoreArgs.item ∧
    ((ShortTermMemory.init cap ret).storeMany (a0 :: rest)).items.length =
      cap ∧
    (a0.id ∉ rest.map StoreArgs.id →
      a0.item ∉ ((ShortTermMemory.init cap ret).storeMany (a0 :: rest)).items) := by
  have hinit : (ShortTermMemory.init cap ret).items = [] := rfl
  have hi := storeMany_items (ShortTermMemory.init cap ret) (a0 :: rest)
    (by rw [hinit]; exact Nat.zero_le _)
  rw [hinit] at hi
  simp only [List.nil_append, List.map_cons] at hi
  have hcap : (ShortTermMemory.init cap ret).max_capacity = cap := rfl
  rw [hcap] at hi
  rw [rtake_succ_length (by simpa using h)] at hi
  refine ⟨hi, by rw [hi]; simpa using h, ?_⟩
  intro hid hmem
  rw [hi] at hmem
  obtain ⟨a, ha, hae⟩ := List.mem_map.mp hmem
  apply hid
  have : a.id = a0.id := congrArg MemoryItem.memory_id hae
  exact this ▸ List.mem_map_of_mem StoreArgs.id ha

/-- Witness for C1 at capacity 3 with the concrete items A, B, C, D. -/
theorem workingMemory_capacity_fifo_witness :
    ((ShortTermMemory.init 3 30).storeMany [argA, argB, argC, argD]).items =
      [argB.item, argC.item, argD.item] ∧
    argA.item ∉
      ((ShortTermMemory.init 3 30).storeMany [argA, argB, argC, argD]).items := by
  have h := workingMemory_capacity_fifo 3 30 argA [argB, argC, argD] rfl
  exact ⟨h.1, h.2.2 (by decide)⟩

end Nexus

namespace Nexus

/-! ### Claim C4: access semantics of WorkingMemory.retrieve -/

/-- C4: for an item present in the side table, each `retrieve` call
returns it with `access_count` incremented by one, `last_accessed`
refreshed to the clock reading, and importance replaced by
`min 1 (importance + 0.05)`, updating the side table in place; an item of
importance 0.90 reaches 0.95 after one call and exactly 1 after three. -/
theorem retrieveState_item_map (s : ShortTermMemory) (id : String)
    (it : MemoryItem) (now : ℚ) (h : lookupId s.item_map id = some it) :
    (s.retrieveState id now).item_map =
      upsert s.item_map id (ShortTermMemory.bumpItem it now) := by
  simp [ShortTermMemory.retrieveState, ShortTermMemory.retrieve, h]

theorem workingMemory_retrieve_access (s : ShortTermMemory) (id : String)
    (it : MemoryItem) (now1 now2 now3 : ℚ)
    (h : lookupId s.item_map id = some it) :
    (s.retrieve id now1).1 = some (ShortTermMemory.bumpItem it now1) ∧
    lookupId (s.retrieveState id now1).item_map id =
      some (ShortTermMemory.bumpItem it now1) ∧
    (ShortTermMemory.bumpItem it now1).access_count = it.access_count + 1 ∧
    (ShortTermMemory.bumpItem it now1).last_accessed = now1 ∧
    (ShortTermMemory.bumpItem it now1).importance =
      min 1 (it.importance + 1/20) ∧
    (it.importance = 9/10 →
      (ShortTermMemory.bumpItem it now1).importance = 19/20 ∧
      lookupId
        (((s.retrieveState id now1).retrieveState id now2).retrieveState
          id now3).item_map id =
        some (ShortTermMemory.bumpItem
          (ShortTermMemory.bumpItem (ShortTermMemory.bumpItem it now1) now2)
          now3) ∧
      (ShortTermMemory.bumpItem
        (ShortTermMemory.bumpItem (ShortTermMemory.bumpItem it now1) now2)
        now3).importance = 1) := by
  have e1 : (s.retrieveState id now1).item_map =
      upsert s.item_map id (ShortTermMemory.bumpItem it now1) := by
    simp [ShortTermMemory.retrieveState, ShortTermMemory.retrieve, h]
  have l1 : lookupId (s.retrieveState id now1).item_map id =
      some (ShortTermMemory.bumpItem it now1) := by
    rw [e1]; exact lookupId_upsert_self _ _ _
  have e2 := retrieveState_item_map (s.retrieveState id now1) id _ now2 l1
  have l2 : lookupId ((s.retrieveState id now1).retrieveState id now2).item_map
      id = some (ShortTermMemory.bumpItem
        (ShortTermMemory.bumpItem it now1) now2) := by
    rw [e2]; exact lookupId_upsert_self _ _ _
  have e3 := retrieveState_item_map
    ((s.retrieveState id now1).retrieveState id now2) id _ now3 l2
  have l3 : lookupId (((s.retrieveState id now1).retrieveState id
      now2).retrieveState id now3).item_map id =
      some (ShortTermMemory.bumpItem (ShortTermMemory.bumpItem
        (ShortTermMemory.bumpItem it now1) now2) now3) := by
    rw [e3]; exact lookupId_upsert_self _ _ _
  refine ⟨by simp [ShortTermMemory.retrieve, h], l1, rfl, rfl, rfl, ?_⟩
  intro himp
  have i1 : (ShortTermMemory.bumpItem it now1).importance = 19/20 := by
    simp only [ShortTermMemory.bumpItem, himp]
    rw [show (9/10 : ℚ) + 1/20 = 19/20 by norm_num,
      min_eq_right (by norm_num : (19/20 : ℚ) ≤ 1)]
  have i2 : (ShortTermMemory.bumpItem
      (ShortTermMemory.bumpItem it now1) now2).importance = 1 := by
    have hs : (ShortTermMemory.bumpItem
        (ShortTermMemory.bumpItem it now1) now2).importance =
        min 1 ((ShortTermMemory.bumpItem it now1).importance + 1/20) := rfl
    rw [hs, i1, show (19/20 : ℚ) + 1/20 = 1 by norm_num, min_self]
  have i3 : (ShortTermMemory.bumpItem (ShortTermMemory.bumpItem
      (ShortTermMemory.bumpItem it now1) now2) now3).importance = 1 := by
    have hs : (ShortTermMemory.bumpItem (ShortTermMemory.bumpItem
        (ShortTermMemory.bumpItem it now1) now2) now3).importance =
        min 1 ((ShortTermMemory.bumpItem
          (ShortTermMemory.bumpItem it now1) now2).importance + 1/20) := rfl
    rw [hs, i2, min_eq_left (by norm_num : (1 : ℚ) ≤ 1 + 1/20)]
  exact ⟨i1, l3, i3⟩

/-- Witness for C4 on a concrete one-item side table with importance 0.9. -/
theorem workingMemory_retrieve_access_witness :
    lookupId [("w", mkItem "w" 0 "W" "episodic" (9/10) [] [])] "w" =
      some (mkItem "w" 0 "W" "episodic" (9/10) [] []) ∧
    (ShortTermMemory.bumpItem
      (ShortTermMemory.bumpItem
        (ShortTermMemory.bumpItem
          (mkItem "w" 0 "W" "episodic" (9/10) [] []) 1) 2) 3).importance = 1 := by
  have hl : lookupId [("w", mkItem "w" 0 "W" "episodic" (9/10) [] [])] "w" =
      some (mkItem "w" 0 "W" "episodic" (9/10) [] []) := by
    simp [lookupId]
  have h := workingMemory_retrieve_access
    { max_capacity := 5, retention_minutes := 30, items := [],
      item_map := [("w", mkItem "w" 0 "W" "episodic" (9/10) [] [])] }
    "w" (mkItem "w" 0 "W" "episodic" (9/10) [] []) 1 2 3 hl
  exact ⟨hl, (h.2.2.2.2.2 rfl).2.2⟩

end Nexus

namespace Nexus

/-! ### Claim C5: immediate placement on orchestrator store -/

theorem rtake_last_mem {α : Type} {n : Nat} (hn : 0 < n) (l : List α)
    (x : α) : x ∈ rtake n (l ++ [x]) := by
  unfold rtake
  rw [List.reverse_append]
  cases n with
  | zero => exact absurd hn (by simp)
  | succ m =>
    simp [List.take_succ_cons]

theorem lookupId_filter_of_pred {α : Type} (m : List (String × α))
    (k : String) (v : α) (pred : String × α → Bool)
    (h : lookupId m k = some v) (hp : pred (k, v) = true) :
    lookupId (m.filter pred) k = some v := by
  induction m with
  | nil => simp [lookupId] at h
  | cons p t ih =>
    simp only [lookupId] at h
    by_cases hk : p.1 = k
    · rw [if_pos hk] at h
      have hv : p.2 = v := by injection h
      have hpv : p = (k, v) := by
        cases p
        simp only at hk hv
        rw [hk, hv]
      rw [hpv]
      simp only [List.filter_cons, hp]
      simp [lookupId]
    · rw [if_neg hk] at h
      simp only [List.filter_cons]
      cases hpr : pred p with
      | true =>
        simp only [lookupId]
        rw [if_neg hk]
        exact ih h
      | false => exact ih h

end Nexus

namespace Nexus

/-- C5: an orchestrator `store` always places the created item into
working memory (ring buffer and side table), and the item's id is a key
of persistent memory immediately after the call exactly when
`force_long_term` is set or the importance is at least 0.8. -/
theorem orchestrator_store_placement (sys : LayeredMemorySystem)
    (id : String) (now : ℚ) (content memory_type : String)
    (importance : ℚ) (tags : List String)
    (context : List (String × String)) (force : Bool)
    (hfresh : id ∉ keysOf sys.long_term.index)
    (hcap : 0 < sys.short_term.max_capacity)
    (hret : 0 ≤ sys.short_term.retention_minutes) :
    mkItem id now content memory_type importance tags context ∈
      ((sys.store id now content memory_type importance tags context
        force).2).short_term.items ∧
    lookupId ((sys.store id now content memory_type importance tags context
        force).2).short_term.item_map id =
      some (mkItem id now content memory_type importance tags context) ∧
    (id ∈ keysOf ((sys.store id now content memory_type importance tags
        context force).2).long_term.index ↔
      (force = true ∨ importance ≥ 8/10)) := by
  have hstm : ((sys.store id now content memory_type importance tags context
      force).2).short_term =
      (sys.short_term.store id now content memory_type importance tags
        context).2 := rfl
  have hitems : ((sys.store id now content memory_type importance tags
      context force).2).short_term.items =
      rtake sys.short_term.max_capacity (sys.short_term.items ++
        [mkItem id now content memory_type importance tags context]) := by
    rw [hstm]
    simp [ShortTermMemory.store, ShortTermMemory.cleanupExpired]
  have hmem : mkItem id now content memory_type importance tags context ∈
      ((sys.store id now content memory_type importance tags context
        force).2).short_term.items := by
    rw [hitems]
    exact rtake_last_mem hcap _ _
  have hmap : lookupId ((sys.store id now content memory_type importance tags
      context force).2).short_term.item_map id =
      some (mkItem id now content memory_type importance tags context) := by
    rw [hstm]
    have hmap_eq : ((sys.short_term.store id now content memory_type
        importance tags context).2).item_map =
        (upsert sys.short_term.item_map id
          (mkItem id now content memory_type importance tags context)).filter
          (fun p => decide (¬ now - p.2.created_at >
            sys.short_term.retention_minutes)) := by
      simp [ShortTermMemory.store, ShortTermMemory.cleanupExpired]
    rw [hmap_eq]
    apply lookupId_filter_of_pred
    · exact lookupId_upsert_self _ _ _
    · simp only [mkItem, decide_eq_true_eq]
      rw [sub_self]
      exact fun hc => absurd hret (not_le.mpr hc)
  refine ⟨hmem, hmap, ?_⟩
  by_cases hc : force = true ∨ importance ≥ 8/10
  · have hlt : ((sys.store id now content memory_type importance tags context
        force).2).long_term =
        sys.long_term.store
          (mkItem id now content memory_type importance tags context) := by
      simp [LayeredMemorySystem.store, ShortTermMemory.store, hc]
    rw [hlt]
    simp only [LongTermMemory.store]
    constructor
    · intro _; exact hc
    · intro _
      exact (mem_keysOf_upsert _ _ _ _).mpr (Or.inl rfl)
  · have hlt : ((sys.store id now content memory_type importance tags context
        force).2).long_term = sys.long_term := by
      simp [LayeredMemorySystem.store, ShortTermMemory.store, hc]
    rw [hlt]
    constructor
    · intro h; exact absurd h hfresh
    · intro h; exact absurd h hc

/-- Witness for C5: importance 0.8 reaches persistent memory at once,
importance 0.79 does not. -/
theorem orchestrator_store_placement_witness :
    ("hi" ∈ keysOf (((LayeredMemorySystem.init 10 30).store "hi" 0 "hot"
      "episodic" (8/10) [] [] false).2).long_term.index ↔
      ((false = true) ∨ (8/10 : ℚ) ≥ 8/10)) ∧
    ("lo" ∈ keysOf (((LayeredMemorySystem.init 10 30).store "lo" 0 "cool"
      "episodic" (79/100) [] [] false).2).long_term.index ↔
      ((false = true) ∨ (79/100 : ℚ) ≥ 8/10)) := by
  constructor
  · exact (orchestrator_store_placement (LayeredMemorySystem.init 10 30)
      "hi" 0 "hot" "episodic" (8/10) [] [] false (by simp [LayeredMemorySystem.init, LongTermMemory.empty, keysOf])
      (by norm_num [LayeredMemorySystem.init, ShortTermMemory.init])
      (by norm_num [LayeredMemorySystem.init, ShortTermMemory.init])).2.2
  · exact (orchestrator_store_placement (LayeredMemorySystem.init 10 30)
      "lo" 0 "cool" "episodic" (79/100) [] [] false (by simp [LayeredMemorySystem.init, LongTermMemory.empty, keysOf])
      (by norm_num [LayeredMemorySystem.init, ShortTermMemory.init])
      (by norm_num [LayeredMemorySystem.init, ShortTermMemory.init])).2.2

end Nexus

namespace Nexus

/-! ### Claim C7: prune condition and thorough removal -/

theorem lookupId_mem {α : Type} {m : List (String × α)} {k : String} {v : α}
    (h : lookupId m k = some v) : (k, v) ∈ m := by
  induction m with
  | nil => simp [lookupId] at h
  | cons p t ih =>
    simp only [lookupId] at h
    by_cases hk : p.1 = k
    · rw [if_pos hk] at h
      have hv : p.2 = v := by injection h
      have hpv : (k, v) = p := by
        cases p
        simp only at hk hv
        rw [hk, hv]
      rw [hpv]
      exact List.mem_cons_self _ _
    · rw [if_neg hk] at h
      exact List.mem_cons_of_mem _ (ih h)

theorem nodup_keys_value_eq {α : Type} {m : List (String × α)} {k : String}
    {v1 v2 : α} (hnd : (keysOf m).Nodup) (h1 : (k, v1) ∈ m)
    (h2 : (k, v2) ∈ m) : v1 = v2 := by
  induction m with
  | nil => simp at h1
  | cons p t ih =>
    simp only [keysOf, List.map_cons, List.nodup_cons] at hnd
    rcases List.mem_cons.mp h1 with e1 | e1
    · rcases List.mem_cons.mp h2 with e2 | e2
      · have e3 : (k, v1) = ((k, v2) : String × α) := e1.trans e2.symm
        injection e3
      · have hk : p.1 = k := by rw [← e1]
        have hmem : k ∈ List.map Prod.fst t :=
          List.mem_map.mpr ⟨(k, v2), e2, rfl⟩
        exact absurd hmem (hk ▸ hnd.1)
    · rcases List.mem_cons.mp h2 with e2 | e2
      · have hk : p.1 = k := by rw [← e2]
        have hmem : k ∈ List.map Prod.fst t :=
          List.mem_map.mpr ⟨(k, v1), e1, rfl⟩
        exact absurd hmem (hk ▸ hnd.1)
      · exact ih hnd.2 e1 e2

theorem lookupId_filter_key_none {α : Type} (m : List (String × α))
    (k : String) (f : String → Bool) (hk : f k = false) :
    lookupId (m.filter (fun p => f p.1)) k = none := by
  induction m with
  | nil => rfl
  | cons p t ih =>
    simp only [List.filter_cons]
    cases hf : f p.1 with
    | true =>
      simp only [lookupId]
      rw [if_neg (fun hc => by rw [hc] at hf; rw [hf] at hk; cases hk)]
      exact ih
    | false => exact ih

theorem not_mem_bucketGet_discardFold (tags : List String)
    (ti : List (String × List String)) (x y t : String)
    (h : y ∉ bucketGet ti t) :
    y ∉ bucketGet (tags.foldl (fun a b => bucketDiscard a b x) ti) t := by
  induction tags generalizing ti with
  | nil => exact h
  | cons t0 rest ih =>
    simp only [List.foldl_cons]
    exact ih _ (fun hc => h ((mem_bucketGet_bucketDiscard ti t0 x t y).mp hc).1)

theorem self_not_mem_bucketGet_discardFold (tags : List String)
    (ti : List (String × List String)) (x t : String) (ht : t ∈ tags) :
    x ∉ bucketGet (tags.foldl (fun a b => bucketDiscard a b x) ti) t := by
  induction tags generalizing ti with
  | nil => simp at ht
  | cons t0 rest ih =>
    simp only [List.foldl_cons]
    rcases List.mem_cons.mp ht with rfl | hmem
    · exact not_mem_bucketGet_discardFold rest _ x x t
        (fun hc => ((mem_bucketGet_bucketDiscard ti t x t x).mp hc).2
          ⟨rfl, rfl⟩)
    · exact ih _ hmem

theorem not_mem_tagFold (rem : List (String × MemoryItem))
    (ti : List (String × List String)) (y t : String)
    (h : y ∉ bucketGet ti t) :
    y ∉ bucketGet (rem.foldl (fun a p =>
      p.2.tags.foldl (fun a2 t2 => bucketDiscard a2 t2 p.1) a) ti) t := by
  induction rem generalizing ti with
  | nil => exact h
  | cons q rest ih =>
    simp only [List.foldl_cons]
    exact ih _ (not_mem_bucketGet_discardFold _ _ _ _ _ h)

theorem removed_not_mem_tagFold (rem : List (String × MemoryItem))
    (ti : List (String × List String)) (q : String × MemoryItem)
    (hq : q ∈ rem) (t : String) (ht : t ∈ q.2.tags) :
    q.1 ∉ bucketGet (rem.foldl (fun a p =>
      p.2.tags.foldl (fun a2 t2 => bucketDiscard a2 t2 p.1) a) ti) t := by
  induction rem generalizing ti with
  | nil => simp at hq
  | cons q0 rest ih =>
    simp only [List.foldl_cons]
    rcases List.mem_cons.mp hq with rfl | hmem
    · exact not_mem_tagFold rest _ _ _
        (self_not_mem_bucketGet_discardFold _ _ _ _ ht)
    · exact ih _ hmem

theorem not_mem_typeFold (rem : List (String × MemoryItem))
    (ti : List (String × List String)) (y t : String)
    (h : y ∉ bucketGet ti t) :
    y ∉ bucketGet (rem.foldl (fun a p =>
      bucketDiscard a p.2.memory_type p.1) ti) t := by
  induction rem generalizing ti with
  | nil => exact h
  | cons q rest ih =>
    simp only [List.foldl_cons]
    exact ih _ (fun hc => h ((mem_bucketGet_bucketDiscard _ _ _ _ _).mp hc).1)

theorem removed_not_mem_typeFold (rem : List (String × MemoryItem))
    (ti : List (String × List String)) (q : String × MemoryItem)
    (hq : q ∈ rem) :
    q.1 ∉ bucketGet (rem.foldl (fun a p =>
      bucketDiscard a p.2.memory_type p.1) ti) q.2.memory_type := by
  induction rem generalizing ti with
  | nil => simp at hq
  | cons q0 rest ih =>
    simp only [List.foldl_cons]
    rcases List.mem_cons.mp hq with rfl | hmem
    · exact not_mem_typeFold rest _ _ _
        (fun hc => ((mem_bucketGet_bucketDiscard _ _ _ _ _).mp hc).2
          ⟨rfl, rfl⟩)
    · exact ih _ hmem

end Nexus

namespace Nexus

theorem lookupId_filter_key_same {α : Type} (m : List (String × α))
    (k : String) (f : String → Bool) (hk : f k = true) :
    lookupId (m.filter (fun p => f p.1)) k = lookupId m k := by
  induction m with
  | nil => rfl
  | cons p t ih =>
    simp only [List.filter_cons]
    by_cases hpk : p.1 = k
    · have hfp : f p.1 = true := by rw [hpk]; exact hk
      simp only [hfp, if_true, lookupId]
      rw [if_pos hpk, if_pos hpk]
    · cases hf : f p.1 with
      | true =>
        simp only [if_true, lookupId]
        rw [if_neg hpk, if_neg hpk]
        exact ih
      | false =>
        simp only [Bool.false_eq_true, if_false]
        rw [ih]
        simp only [lookupId]
        rw [if_neg hpk]

/-- C7: `prune(minImportance, maxAgeDays)` removes a stored item exactly
when its decayed importance `importance * (1 - decayRate * ageDays/365)`
(with the floored day count, unclamped below) falls under the floor or its
age strictly exceeds the maximum; a removed item disappears from the
primary map, from the bucket of each of its tags, from its kind's bucket,
and from durable storage. -/
theorem persistentMemory_prune_removal (m : LongTermMemory)
    (minI : ℚ) (maxA : Nat) (now : ℚ) (id : String) (item : MemoryItem)
    (h : lookupId m.index id = some item)
    (hnd : (keysOf m.index).Nodup) :
    (lookupId ((m.prune minI maxA now).1).index id = none ↔
      LongTermMemory.pruneCond minI maxA now item) ∧
    (LongTermMemory.pruneCond minI maxA now item →
      (∀ t ∈ item.tags,
        id ∉ bucketGet ((m.prune minI maxA now).1).tag_index t) ∧
      id ∉ bucketGet ((m.prune minI maxA now).1).type_index
        item.memory_type ∧
      lookupId ((m.prune minI maxA now).1).storage id = none) := by
  have hmem : (id, item) ∈ m.index := lookupId_mem h
  have hidx : ((m.prune minI maxA now).1).index =
      m.index.filter (fun p => decide (p.1 ∉ keysOf
        (m.index.filter (fun p2 =>
          decide (LongTermMemory.pruneCond minI maxA now p2.2))))) := rfl
  have hsto : ((m.prune minI maxA now).1).storage =
      m.storage.filter (fun p => decide (p.1 ∉ keysOf
        (m.index.filter (fun p2 =>
          decide (LongTermMemory.pruneCond minI maxA now p2.2))))) := rfl
  by_cases hc : LongTermMemory.pruneCond minI maxA now item
  · have hrem : (id, item) ∈ m.index.filter (fun p2 =>
        decide (LongTermMemory.pruneCond minI maxA now p2.2)) :=
      List.mem_filter.mpr ⟨hmem, by simpa using hc⟩
    have hkeys : id ∈ keysOf (m.index.filter (fun p2 =>
        decide (LongTermMemory.pruneCond minI maxA now p2.2))) :=
      List.mem_map.mpr ⟨(id, item), hrem, rfl⟩
    refine ⟨⟨fun _ => hc, fun _ => ?_⟩, fun _ => ⟨?_, ?_, ?_⟩⟩
    · rw [hidx]
      exact lookupId_filter_key_none _ _
        (fun x => decide (x ∉ keysOf (m.index.filter (fun p2 =>
          decide (LongTermMemory.pruneCond minI maxA now p2.2)))))
        (by simp [hkeys])
    · intro t ht
      exact removed_not_mem_tagFold _ m.tag_index (id, item) hrem t ht
    · exact removed_not_mem_typeFold _ m.type_index (id, item) hrem
    · rw [hsto]
      exact lookupId_filter_key_none _ _
        (fun x => decide (x ∉ keysOf (m.index.filter (fun p2 =>
          decide (LongTermMemory.pruneCond minI maxA now p2.2)))))
        (by simp [hkeys])
  · have hnk : id ∉ keysOf (m.index.filter (fun p2 =>
        decide (LongTermMemory.pruneCond minI maxA now p2.2))) := by
      intro hk
      obtain ⟨p, hp, hpk⟩ := List.mem_map.mp hk
      have hpi : p ∈ m.index := (List.mem_filter.mp hp).1
      have hpc : LongTermMemory.pruneCond minI maxA now p.2 := by
        simpa using (List.mem_filter.mp hp).2
      have hpe : p = (id, p.2) := by
        cases p; simp only at hpk; rw [hpk]
      have hv : p.2 = item :=
        nodup_keys_value_eq hnd (hpe ▸ hpi) hmem
      exact hc (hv ▸ hpc)
    refine ⟨⟨fun hn => ?_, fun hcc => absurd hcc hc⟩,
      fun hcc => absurd hcc hc⟩
    rw [hidx] at hn
    rw [lookupId_filter_key_same m.index id
      (fun x => decide (x ∉ keysOf (m.index.filter (fun p2 =>
        decide (LongTermMemory.pruneCond minI maxA now p2.2)))))
      (by simpa using hnk)] at hn
    rw [h] at hn
    exact Option.noConfusion hn

end Nexus

namespace Nexus

/-- Witness for C7: at age 400 days (now = 400·1440 minutes) and
`maxAgeDays = 365`, `item7` is removed from the map, its tag bucket and
storage by the age condition alone. -/
theorem persistentMemory_prune_removal_witness :
    lookupId ((ltm7.prune (1/10) 365 (400*1440)).1).index "p" = none ∧
    "p" ∉ bucketGet ((ltm7.prune (1/10) 365 (400*1440)).1).tag_index "t" ∧
    lookupId ((ltm7.prune (1/10) 365 (400*1440)).1).storage "p" = none := by
  have hl : lookupId ltm7.index "p" = some item7 := by
    simp [ltm7, item7, LongTermMemory.store, LongTermMemory.empty, upsert,
      lookupId]
  have hnd : (keysOf ltm7.index).Nodup := by
    simp [ltm7, item7, LongTermMemory.store, LongTermMemory.empty, upsert,
      keysOf]
  have hcond : LongTermMemory.pruneCond (1/10) 365 (400*1440) item7 := by
    unfold LongTermMemory.pruneCond
    right
    norm_num [item7]
  have h := persistentMemory_prune_removal ltm7 (1/10) 365 (400*1440) "p"
    item7 hl hnd
  exact ⟨h.1.mpr hcond, (h.2 hcond).1 "t" (by simp [item7]),
    (h.2 hcond).2.2⟩

end Nexus

namespace Nexus

/-! ### Membership through the search pipeline -/

theorem mem_insertDescBy {α : Type} (key : α → ℚ) (a x : α) (l : List α) :
    x ∈ insertDescBy key a l ↔ x = a ∨ x ∈ l := by
  induction l with
  | nil => simp [insertDescBy]
  | cons b bs ih =>
    simp only [insertDescBy]
    by_cases hc : key a < key b
    · rw [if_pos hc]
      simp only [List.mem_cons, ih]
      tauto
    · rw [if_neg hc]
      simp only [List.mem_cons]

theorem mem_sortDescBy {α : Type} (key : α → ℚ) (x : α) (l : List α) :
    x ∈ sortDescBy key l ↔ x ∈ l := by
  induction l with
  | nil => simp [sortDescBy]
  | cons b bs ih =>
    simp only [sortDescBy, List.foldr_cons] at ih ⊢
    rw [mem_insertDescBy, ih, List.mem_cons]

theorem mem_insertDescByPair {α : Type} (key : α → ℚ × ℚ) (a x : α)
    (l : List α) : x ∈ insertDescByPair key a l ↔ x = a ∨ x ∈ l := by
  induction l with
  | nil => simp [insertDescByPair]
  | cons b bs ih =>
    simp only [insertDescByPair]
    by_cases hc : pairLt (key a) (key b) = true
    · rw [if_pos hc]
      simp only [List.mem_cons, ih]
      tauto
    · rw [if_neg hc]
      simp only [List.mem_cons]

theorem mem_sortDescByPair {α : Type} (key : α → ℚ × ℚ) (x : α)
    (l : List α) : x ∈ sortDescByPair key l ↔ x ∈ l := by
  induction l with
  | nil => simp [sortDescByPair]
  | cons b bs ih =>
    simp only [sortDescByPair, List.foldr_cons] at ih ⊢
    rw [mem_insertDescByPair, ih, List.mem_cons]

/-- Any item of a completed `LongTermMemory.search` result was looked up
from a candidate id that passed the tag and kind filters. -/
theorem mem_search_from_candidates (m : LongTermMemory) (query : String)
    (tags : List String) (mt : String) (minI : ℚ) (tk : Nat)
    (r : List MemoryItem) (hr : m.search query tags mt minI tk = some r)
    (it : MemoryItem) (hit : it ∈ r) :
    ∃ id ∈ m.searchCandidates tags mt,
      lookupId m.index id = some it ∧ it.importance ≥ minI := by
  unfold LongTermMemory.search at hr
  by_cases hq : query ≠ ""
  · rw [if_pos hq] at hr
    by_cases hz : ((m.searchCandidates tags mt).filterMap
        (fun id => lookupId m.index id)).filter
        (fun it => decide (it.importance ≥ minI)) |>.filter
        (fun it => matchesQuery query it.content) |>.any
        (fun it => wordCount it.content.data == 0)
    · rw [if_pos hz] at hr
      exact Option.noConfusion hr
    · rw [if_neg hz] at hr
      have hre : r = (sortDescBy _ _).take tk := (Option.some.injEq _ _).mp hr.symm
      rw [hre] at hit
      have h1 := List.mem_of_mem_take hit
      rw [mem_sortDescBy] at h1
      have h2 := (List.mem_filter.mp h1).1
      have h3 := List.mem_filter.mp h2
      obtain ⟨id, hid, hlook⟩ := List.mem_filterMap.mp h3.1
      exact ⟨id, hid, hlook, by simpa using h3.2⟩
  · rw [if_neg hq] at hr
    have hre : r = (sortDescByPair _ _).take tk :=
      (Option.some.injEq _ _).mp hr.symm
    rw [hre] at hit
    have h1 := List.mem_of_mem_take hit
    rw [mem_sortDescByPair] at h1
    have h3 := List.mem_filter.mp h1
    obtain ⟨id, hid, hlook⟩ := List.mem_filterMap.mp h3.1
    exact ⟨id, hid, hlook, by simpa using h3.2⟩

end Nexus

namespace Nexus

/-! ### Claim C2: the kind filter of PersistentMemory.search -/

theorem searchCandidates_kind_sound (m : LongTermMemory)
    (tags : List String) (mt : String) (hmt : mt ≠ "")
    (hkey : mt ∈ keysOf m.type_index) (id : String)
    (hid : id ∈ m.searchCandidates tags mt) :
    id ∈ bucketGet m.type_index mt := by
  unfold LongTermMemory.searchCandidates at hid
  rw [if_pos ⟨hmt, hkey⟩] at hid
  simpa using (List.mem_filter.mp hid).2

/-- C2 (counterexample to the claim as stated): with a single stored
episodic item, a search for kind `semantic` skips the kind filter (the
kind is not a key of the kind index) and returns the episodic item, so a
result item lacks the requested kind and the result is not empty even
though no stored item has that kind. -/
theorem persistentMemory_search_kind_counterexample :
    ltmC2.search "" [] "semantic" 0 10 = some [itemC2] ∧
    itemC2.memory_type ≠ "semantic" ∧
    (∀ p ∈ ltmC2.index, p.2.memory_type ≠ "semantic") := by
  refine ⟨?_, by simp [itemC2, mkItem], ?_⟩
  · norm_num [ltmC2, itemC2, LongTermMemory.search,
      LongTermMemory.searchCandidates, LongTermMemory.tagMatches,
      LongTermMemory.empty, LongTermMemory.store, mkItem, upsert, keysOf,
      bucketGet, bucketAdd, lookupId, sortDescByPair, insertDescByPair,
      pairLt, List.filter, List.filterMap]
  · intro p hp
    have : p = ("x", itemC2) := by
      simpa [ltmC2, itemC2, LongTermMemory.empty, LongTermMemory.store,
        mkItem, upsert] using hp
    rw [this]
    simp [itemC2, mkItem]

/-- C2 (amended): when the requested kind is a key of the kind index, the
candidate set is intersected with that kind's id-set, so — whenever the
bucket only holds ids mapped to items of that kind — every result item
has the requested kind, and an empty bucket forces an empty result.  When
the kind was never indexed, the filter is silently skipped. -/
theorem persistentMemory_search_kind_filter (m : LongTermMemory)
    (query : String) (tags : List String) (mt : String) (minI : ℚ)
    (tk : Nat) (r : List MemoryItem) (hmt : mt ≠ "")
    (hkey : mt ∈ keysOf m.type_index)
    (hsound : ∀ id ∈ bucketGet m.type_index mt,
      ∀ it, lookupId m.index id = some it → it.memory_type = mt)
    (hr : m.search query tags mt minI tk = some r) :
    (∀ it ∈ r, it.memory_type = mt) ∧
    (bucketGet m.type_index mt = [] → r = []) := by
  constructor
  · intro it hit
    obtain ⟨id, hid, hlook, _⟩ :=
      mem_search_from_candidates m query tags mt minI tk r hr it hit
    exact hsound id (searchCandidates_kind_sound m tags mt hmt hkey id hid)
      it hlook
  · intro hb
    rw [List.eq_nil_iff_forall_not_mem]
    intro it hit
    obtain ⟨id, hid, _, _⟩ :=
      mem_search_from_candidates m query tags mt minI tk r hr it hit
    have hbk := searchCandidates_kind_sound m tags mt hmt hkey id hid
    rw [hb] at hbk
    simp at hbk

/-- Witness for the amended C2 on a two-item store: searching for kind
`semantic` returns only the semantic item. -/
theorem persistentMemory_search_kind_filter_witness :
    ltmW2.search "" [] "semantic" 0 10 = some [itemS] ∧
    (∀ it ∈ [itemS], it.memory_type = "semantic") := by
  have hr : ltmW2.search "" [] "semantic" 0 10 = some [itemS] := by
    norm_num [ltmW2, itemS, itemE, LongTermMemory.search,
      LongTermMemory.searchCandidates, LongTermMemory.tagMatches,
      LongTermMemory.empty, LongTermMemory.store, mkItem, upsert, keysOf,
      bucketGet, bucketAdd, lookupId, sortDescByPair, insertDescByPair,
      pairLt, List.filter, List.filterMap]
  refine ⟨hr, ?_⟩
  refine (persistentMemory_search_kind_filter ltmW2 "" [] "semantic" 0 10
    [itemS] (by simp) ?_ ?_ hr).1
  · simp [ltmW2, itemS, itemE, LongTermMemory.empty, LongTermMemory.store,
      mkItem, upsert, keysOf, bucketAdd]
  · intro id hid it hlook
    have hid2 : id = "s" := by
      simpa [ltmW2, itemS, itemE, LongTermMemory.empty,
        LongTermMemory.store, mkItem, bucketAdd, bucketGet, lookupId]
        using hid
    rw [hid2] at hlook
    have : it = itemS := by
      have := hlook.symm
      simpa [ltmW2, itemS, itemE, LongTermMemory.empty,
        LongTermMemory.store, mkItem, upsert, lookupId] using this
    rw [this]
    simp [itemS, mkItem]

end Nexus

namespace Nexus

/-! ### Claim C6: union semantics of the tag filter -/

theorem mem_tagMatches_foldl (m : LongTermMemory) (ts : List String)
    (acc : List String) (id : String) :
    id ∈ ts.foldl (fun a t =>
        a ++ (bucketGet m.tag_index t).filter (fun x => decide (x ∉ a)))
      acc ↔
    id ∈ acc ∨ ∃ t ∈ ts, id ∈ bucketGet m.tag_index t := by
  induction ts generalizing acc with
  | nil => simp
  | cons t0 rest ih =>
    simp only [List.foldl_cons]
    rw [ih]
    constructor
    · rintro (h | h)
      · rcases List.mem_append.mp h with h | h
        · exact Or.inl h
        · exact Or.inr ⟨t0, by simp, (List.mem_filter.mp h).1⟩
      · obtain ⟨t, htm, hb⟩ := h
        exact Or.inr ⟨t, by simp [htm], hb⟩
    · rintro (h | ⟨t, htm, hb⟩)
      · exact Or.inl (List.mem_append.mpr (Or.inl h))
      · rcases List.mem_cons.mp htm with rfl | htr
        · by_cases ha : id ∈ acc
          · exact Or.inl (List.mem_append.mpr (Or.inl ha))
          · exact Or.inl (List.mem_append.mpr
              (Or.inr (List.mem_filter.mpr ⟨hb, by simpa using ha⟩)))
        · exact Or.inr ⟨t, htr, hb⟩

theorem mem_tagMatches (m : LongTermMemory) (ts : List String)
    (id : String) :
    id ∈ m.tagMatches ts ↔ ∃ t ∈ ts, id ∈ bucketGet m.tag_index t := by
  unfold LongTermMemory.tagMatches
  rw [mem_tagMatches_foldl]
  simp

theorem searchCandidates_tag_sound (m : LongTermMemory) (ts : List String)
    (mt : String) (hts : ts ≠ []) (id : String)
    (hid : id ∈ m.searchCandidates ts mt) : id ∈ m.tagMatches ts := by
  unfold LongTermMemory.searchCandidates at hid
  by_cases hk : mt ≠ "" ∧ mt ∈ keysOf m.type_index
  · rw [if_pos hk] at hid
    have h1 := (List.mem_filter.mp hid).1
    rw [if_neg hts] at h1
    simpa using (List.mem_filter.mp h1).2
  · rw [if_neg hk] at hid
    rw [if_neg hts] at hid
    simpa using (List.mem_filter.mp hid).2

/-- C6: a search with a nonempty tag list only returns items whose
candidate id lies in the bucket of at least one requested tag (the union,
not the intersection, of the requested buckets); concretely, with
X tagged `a`, Y tagged `b` and Z tagged `a, b`, searching for tags
`[a, b]` returns all three items. -/
theorem persistentMemory_search_tag_union :
    (∀ (m : LongTermMemory) (query : String) (ts : List String)
      (mt : String) (minI : ℚ) (tk : Nat) (r : List MemoryItem),
      ts ≠ [] → m.search query ts mt minI tk = some r →
      ∀ it ∈ r, ∃ t ∈ ts, ∃ id, lookupId m.index id = some it ∧
        id ∈ bucketGet m.tag_index t) ∧
    ltm6.search "" ["a", "b"] "" 0 10 = some [itemX6, itemY6, itemZ6] := by
  constructor
  · intro m query ts mt minI tk r hts hr it hit
    obtain ⟨id, hid, hlook, _⟩ :=
      mem_search_from_candidates m query ts mt minI tk r hr it hit
    obtain ⟨t, htm, hb⟩ := (mem_tagMatches m ts id).mp
      (searchCandidates_tag_sound m ts mt hts id hid)
    exact ⟨t, htm, id, hlook, hb⟩
  · norm_num [ltm6, itemX6, itemY6, itemZ6, LongTermMemory.search,
      LongTermMemory.searchCandidates, LongTermMemory.tagMatches,
      LongTermMemory.empty, LongTermMemory.store, mkItem, upsert, keysOf,
      bucketGet, bucketAdd, lookupId, sortDescByPair, insertDescByPair,
      pairLt, List.filter, List.filterMap]

/-- Witness for C6: instantiating the union-soundness half on the
concrete three-item search shows Y (tagged only `b`) is returned because
its id sits in the bucket of the requested tag `b`. -/
theorem persistentMemory_search_tag_union_witness :
    ∃ t ∈ ["a", "b"], ∃ id, lookupId ltm6.index id = some itemY6 ∧
      id ∈ bucketGet ltm6.tag_index t := by
  exact persistentMemory_search_tag_union.1 ltm6 "" ["a", "b"] "" 0 10
    [itemX6, itemY6, itemZ6] (by simp)
    persistentMemory_search_tag_union.2 itemY6 (by simp)

end Nexus

namespace Nexus

/-! ### Claim C9: divergence of the two eviction policies -/

theorem mem_upsert {α : Type} (m : List (String × α)) (k' : String)
    (v' : α) (k : String) (v : α) (h : (k, v) ∈ upsert m k' v') :
    (k, v) ∈ m ∨ (k = k' ∧ v = v') := by
  induction m with
  | nil =>
    simp only [upsert, List.mem_singleton] at h
    right
    exact ⟨congrArg Prod.fst h, congrArg Prod.snd h⟩
  | cons p t ih =>
    simp only [upsert] at h
    by_cases hp : p.1 = k'
    · rw [if_pos hp] at h
      rcases List.mem_cons.mp h with he | ht
      · right
        exact ⟨congrArg Prod.fst he, congrArg Prod.snd he⟩
      · exact Or.inl (List.mem_cons_of_mem _ ht)
    · rw [if_neg hp] at h
      rcases List.mem_cons.mp h with he | ht
      · exact Or.inl (he ▸ List.mem_cons_self _ _)
      · rcases ih ht with h1 | h1
        · exact Or.inl (List.mem_cons_of_mem _ h1)
        · exact Or.inr h1

theorem lookupId_filter_none {α : Type} (m : List (String × α)) (k : String)
    (pred : String × α → Bool)
    (h : ∀ v, (k, v) ∈ m → pred (k, v) = false) :
    lookupId (m.filter pred) k = none := by
  induction m with
  | nil => rfl
  | cons p t ih =>
    simp only [List.filter_cons]
    cases hf : pred p with
    | true =>
      simp only [lookupId]
      rw [if_neg (fun hc => by
        have hpe : p = (k, p.2) := by
          cases p; simp only at hc; rw [hc]
        have := h p.2 (hpe ▸ List.mem_cons_self _ _)
        rw [hpe] at hf
        rw [hf] at this
        exact Bool.noConfusion this)]
      exact ih (fun v hv => h v (List.mem_cons_of_mem _ hv))
    | false => exact ih (fun v hv => h v (List.mem_cons_of_mem _ hv))

theorem mem_stmSearch (s : ShortTermMemory) (q : String) (tk : Nat)
    (r : List MemoryItem) (hr : s.search q tk = some r) (it : MemoryItem)
    (hit : it ∈ r) : it ∈ s.items := by
  unfold ShortTermMemory.search at hr
  by_cases hz : (s.items.filter
      (fun it2 => matchesQuery q it2.content)).any
      (fun it2 => wordCount it2.content.data == 0)
  · rw [if_pos hz] at hr
    exact Option.noConfusion hr
  · rw [if_neg hz] at hr
    have hre : r = (sortDescBy _ _).take tk :=
      (Option.some.injEq _ _).mp hr.symm
    rw [hre] at hit
    have h1 := List.mem_of_mem_take hit
    rw [mem_sortDescBy] at h1
    exact (List.mem_filter.mp h1).1

/-- C9: when a store overflows a full ring buffer, the oldest item is
evicted from the buffer — `getAll` and every completed `search` stop
returning it — yet it stays in the side table, where `retrieve` still
resolves (and bumps) it; the expiry sweep conversely never touches the
ring buffer and deletes the side-table entry once the item's age exceeds
the retention window. -/
theorem workingMemory_eviction_divergence (s : ShortTermMemory)
    (e : MemoryItem) (rest : List MemoryItem) (a : StoreArgs)
    (s2 : ShortTermMemory)
    (hs2 : s2 = (s.store a.id a.now a.content a.memory_type a.importance
      a.tags a.context).2)
    (hfull : s.items = e :: rest)
    (hcap : s.items.length = s.max_capacity)
    (hrest : ∀ it ∈ rest, it.memory_id ≠ e.memory_id)
    (hnew : a.id ≠ e.memory_id)
    (hmap : lookupId s.item_map e.memory_id = some e)
    (huniq : ∀ v, (e.memory_id, v) ∈ s.item_map → v = e)
    (hfresh : a.now - e.created_at ≤ s.retention_minutes) :
    e ∉ s2.items ∧
    s2.getAll = s2.items ∧
    (∀ q tk r, s2.search q tk = some r → e ∉ r) ∧
    lookupId s2.item_map e.memory_id = some e ∧
    (∀ now2, (s2.retrieve e.memory_id now2).1 =
      some (ShortTermMemory.bumpItem e now2)) ∧
    (∀ now3, (s2.cleanupExpired now3).items = s2.items) ∧
    (∀ now3, now3 - e.created_at > s.retention_minutes →
      lookupId (s2.cleanupExpired now3).item_map e.memory_id = none) := by
  have hitems : s2.items = rest ++ [a.item] := by
    rw [hs2]
    have h1 : ((s.store a.id a.now a.content a.memory_type a.importance
        a.tags a.context).2).items =
        rtake s.max_capacity (s.items ++ [a.item]) := store_items s a
    rw [h1, hfull]
    rw [hfull] at hcap
    exact rtake_succ_length (by simpa using hcap.symm ▸ hcap)
  have hnotmem : e ∉ s2.items := by
    rw [hitems]
    intro hc
    rcases List.mem_append.mp hc with hc | hc
    · exact hrest e hc rfl
    · have he : e = a.item := by simpa using hc
      have hid : e.memory_id = a.id := by rw [he]; rfl
      exact hnew hid.symm
  have hmap2 : s2.item_map = (upsert s.item_map a.id a.item).filter
      (fun p => decide (¬ a.now - p.2.created_at > s.retention_minutes)) := by
    rw [hs2]
    simp [ShortTermMemory.store, ShortTermMemory.cleanupExpired,
      StoreArgs.item]
  have hlook2 : lookupId s2.item_map e.memory_id = some e := by
    rw [hmap2]
    apply lookupId_filter_of_pred
    · rw [lookupId_upsert_ne _ _ _ _ (fun hc => hnew hc.symm)]
      exact hmap
    · simpa using hfresh
  have huniq2 : ∀ v, (e.memory_id, v) ∈ s2.item_map → v = e := by
    intro v hv
    rw [hmap2] at hv
    have h1 := (List.mem_filter.mp hv).1
    rcases mem_upsert _ _ _ _ _ h1 with h2 | h2
    · exact huniq v h2
    · exact absurd h2.1.symm hnew
  refine ⟨hnotmem, rfl, ?_, hlook2, ?_, ?_, ?_⟩
  · intro q tk r hr hc
    exact hnotmem (mem_stmSearch s2 q tk r hr e hc)
  · intro now2
    simp [ShortTermMemory.retrieve, hlook2]
  · intro now3
    simp [ShortTermMemory.cleanupExpired]
  · intro now3 hage
    have hret : s2.retention_minutes = s.retention_minutes := by
      rw [hs2]; rfl
    show lookupId (s2.item_map.filter
      (fun p => decide (¬ now3 - p.2.created_at > s2.retention_minutes)))
      e.memory_id = none
    apply lookupId_filter_none
    intro v hv
    rw [huniq2 v hv, hret]
    rw [decide_eq_false_iff_not, not_not]
    exact hage

end Nexus

namespace Nexus

/-- Witness for C9: storing G into the full two-slot buffer evicts E from
the ring buffer while E stays retrievable from the side table, until a
sweep at time 100 (age 100 > retention 30) deletes the side entry. -/
theorem workingMemory_eviction_divergence_witness :
    argE9.item ∉ stm9b.items ∧
    lookupId stm9b.item_map argE9.item.memory_id = some argE9.item ∧
    lookupId (stm9b.cleanupExpired 100).item_map argE9.item.memory_id =
      none := by
  have hfull : stm9.items = argE9.item :: [argF9.item] := by
    norm_num [stm9, argE9, argF9, StoreArgs.item, ShortTermMemory.storeMany,
      ShortTermMemory.store, ShortTermMemory.cleanupExpired,
      ShortTermMemory.init, mkItem, rtake, upsert, List.filter, List.foldl]
  have hmc : stm9.max_capacity = 2 := by
    norm_num [stm9, argE9, argF9, ShortTermMemory.storeMany,
      ShortTermMemory.store, ShortTermMemory.cleanupExpired,
      ShortTermMemory.init, List.foldl]
  have hmm : stm9.item_map =
      [("e", argE9.item), ("f", argF9.item)] := by
    norm_num [stm9, argE9, argF9, StoreArgs.item, ShortTermMemory.storeMany,
      ShortTermMemory.store, ShortTermMemory.cleanupExpired,
      ShortTermMemory.init, mkItem, rtake, upsert, List.filter, List.foldl]
  have hmap : lookupId stm9.item_map argE9.item.memory_id =
      some argE9.item := by
    rw [hmm]
    simp [lookupId, argE9, StoreArgs.item, mkItem]
  have h := workingMemory_eviction_divergence stm9 argE9.item [argF9.item]
    argG9 stm9b rfl hfull
    (by rw [hfull, hmc]; rfl)
    (by
      intro it hit
      have : it = argF9.item := by simpa using hit
      rw [this]
      simp [argE9, argF9, StoreArgs.item, mkItem])
    (by simp [argE9, argG9, StoreArgs.item, mkItem])
    hmap
    (by
      intro v hv
      rw [hmm] at hv
      simp only [argE9, StoreArgs.item, mkItem] at hv ⊢
      rcases List.mem_cons.mp hv with he | hf
      · exact (congrArg Prod.snd he : v = _)
      · simp at hf)
    (by norm_num [argE9, argG9, StoreArgs.item, mkItem, stm9,
      ShortTermMemory.storeMany, ShortTermMemory.store,
      ShortTermMemory.cleanupExpired, ShortTermMemory.init])
  refine ⟨h.1, h.2.2.2.1, ?_⟩
  apply h.2.2.2.2.2.2 100
  have hret : stm9.retention_minutes = 30 := by
    norm_num [stm9, ShortTermMemory.storeMany, ShortTermMemory.store,
      ShortTermMemory.cleanupExpired, ShortTermMemory.init, List.foldl]
  rw [hret]
  norm_num [argE9, StoreArgs.item, mkItem]

end Nexus

namespace Nexus

/-! ### Claim C10: safety of the relevance division -/

/-- C10: both search loops divide the occurrence count by the item's word
count exactly for items whose lowercased content contains the lowercased
query, so every call completes (`isSome`) provided each matched item has
at least one word; without that precondition the divisor is zero for some
input — an empty-content item is matched by the empty query at word count
zero, which makes the working-memory search fail, and a one-space item is
matched by a one-space query at word count zero, which makes the
persistent-memory search fail. -/
theorem search_relevance_division_safety :
    (∀ (s : ShortTermMemory) (q : String) (tk : Nat),
      (∀ it ∈ s.items, matchesQuery q it.content = true →
        wordCount it.content.data ≠ 0) →
      (s.search q tk).isSome = true) ∧
    (∀ (m : LongTermMemory) (q : String) (ts : List String) (mt : String)
      (mi : ℚ) (tk : Nat),
      (∀ p ∈ m.index, matchesQuery q p.2.content = true →
        wordCount p.2.content.data ≠ 0) →
      (m.search q ts mt mi tk).isSome = true) ∧
    stm10.search "" 5 = none ∧
    ltm10.search " " [] "" 0 10 = none ∧
    matchesQuery "" "" = true ∧ wordCount "".data = 0 := by
  refine ⟨?_, ?_, ?_, ?_, ?_, rfl⟩
  · intro s q tk hpre
    unfold ShortTermMemory.search
    rw [if_neg]
    · rfl
    · intro hz
      obtain ⟨it, hmem, hwc⟩ := List.any_eq_true.mp hz
      have h1 := List.mem_filter.mp hmem
      exact hpre it h1.1 h1.2 (by simpa using hwc)
  · intro m q ts mt mi tk hpre
    unfold LongTermMemory.search
    by_cases hq : q ≠ ""
    · rw [if_pos hq, if_neg]
      · rfl
      · intro hz
        obtain ⟨it, hmem, hwc⟩ := List.any_eq_true.mp hz
        have h1 := (List.mem_filter.mp hmem)
        have h2 := (List.mem_filter.mp h1.1).1
        obtain ⟨id, _, hlook⟩ := List.mem_filterMap.mp h2
        exact hpre (id, it) (lookupId_mem hlook) h1.2 (by simpa using hwc)
    · rw [if_neg hq]
      rfl
  · norm_num [stm10, ShortTermMemory.search, ShortTermMemory.store,
      ShortTermMemory.cleanupExpired, ShortTermMemory.init, mkItem, rtake,
      upsert, matchesQuery, lowChars, toLowerL, containsSub, wordCount,
      List.filter, List.any]
  · have hq : ¬ (" " = "") := by decide
    norm_num [hq, ltm10, LongTermMemory.search, LongTermMemory.searchCandidates,
      LongTermMemory.tagMatches, LongTermMemory.empty, LongTermMemory.store,
      mkItem, upsert, keysOf, bucketGet, bucketAdd, lookupId, matchesQuery,
      lowChars, toLowerL, containsSub, wordCount, List.isPrefixOf,
      Char.isWhitespace, List.filter, List.filterMap, List.any]
  · simp [matchesQuery, lowChars, toLowerL, containsSub]

/-- Witness for C10: the safety halves applied to concrete states — the
tag-union store (whose contents all have words) completes under any of
its matched queries, here the query `xc`. -/
theorem search_relevance_division_safety_witness :
    ((ShortTermMemory.init 5 30).search "xc" 5).isSome = true ∧
    (ltm6.search "xc" [] "" 0 10).isSome = true := by
  constructor
  · apply search_relevance_division_safety.1
    intro it hit
    simp [ShortTermMemory.init] at hit
  · apply search_relevance_division_safety.2.1
    intro p hp hm
    have he : p = ("x6", itemX6) ∨ p = ("y6", itemY6) ∨
        p = ("z6", itemZ6) := by
      simpa [ltm6, itemX6, itemY6, itemZ6, LongTermMemory.empty,
        LongTermMemory.store, mkItem, upsert] using hp
    rcases he with rfl | rfl | rfl <;>
      norm_num [itemX6, itemY6, itemZ6, mkItem, wordCount,
        Char.isWhitespace] <;> decide

end Nexus

namespace Nexus

/-! ### Claim C3: idempotence of consolidation -/

theorem consolidateStep_keys_mono (rules : List ConsolidationRule)
    (now : ℚ) (acc : LongTermMemory × Nat) (it : MemoryItem) (k : String)
    (h : k ∈ keysOf acc.1.index) :
    k ∈ keysOf ((LayeredMemorySystem.consolidateStep rules now acc
      it).1).index := by
  unfold LayeredMemorySystem.consolidateStep
  cases hf : rules.find?
      (fun r => decide (LayeredMemorySystem.ruleQualifies now it r)) with
  | none => exact h
  | some r =>
    simp only
    by_cases hm : it.memory_id ∈ keysOf acc.1.index
    · rw [if_pos hm]; exact h
    · rw [if_neg hm]
      exact (mem_keysOf_upsert _ _ _ _).mpr (Or.inr h)

theorem consolidateFold_keys_mono (rules : List ConsolidationRule)
    (now : ℚ) (items : List MemoryItem) (acc : LongTermMemory × Nat)
    (k : String) (h : k ∈ keysOf acc.1.index) :
    k ∈ keysOf ((items.foldl (LayeredMemorySystem.consolidateStep rules now)
      acc).1).index := by
  induction items generalizing acc with
  | nil => exact h
  | cons it0 rest ih =>
    rw [List.foldl_cons]
    exact ih _ (consolidateStep_keys_mono rules now acc it0 k h)

theorem consolidateFold_covers (rules : List ConsolidationRule) (now : ℚ)
    (items : List MemoryItem) (acc : LongTermMemory × Nat) (it : MemoryItem)
    (hit : it ∈ items)
    (hq : (rules.find?
      (fun r => decide (LayeredMemorySystem.ruleQualifies now it
        r))).isSome = true) :
    it.memory_id ∈ keysOf ((items.foldl
      (LayeredMemorySystem.consolidateStep rules now) acc).1).index := by
  induction items generalizing acc with
  | nil => simp at hit
  | cons it0 rest ih =>
    rw [List.foldl_cons]
    rcases List.mem_cons.mp hit with rfl | hmem
    · apply consolidateFold_keys_mono
      unfold LayeredMemorySystem.consolidateStep
      cases hf : rules.find?
          (fun r => decide (LayeredMemorySystem.ruleQualifies now it r)) with
      | none => rw [hf] at hq; exact Bool.noConfusion hq
      | some r =>
        simp only
        by_cases hm : it.memory_id ∈ keysOf acc.1.index
        · rw [if_pos hm]; exact hm
        · rw [if_neg hm]
          exact (mem_keysOf_upsert _ _ _ _).mpr (Or.inl rfl)
    · exact ih _ hmem

theorem consolidateFold_noop (rules : List ConsolidationRule) (now : ℚ)
    (items : List MemoryItem) (acc : LongTermMemory × Nat)
    (h : ∀ it ∈ items, (rules.find?
      (fun r => decide (LayeredMemorySystem.ruleQualifies now it
        r))).isSome = true → it.memory_id ∈ keysOf acc.1.index) :
    items.foldl (LayeredMemorySystem.consolidateStep rules now) acc =
      acc := by
  induction items with
  | nil => rfl
  | cons it0 rest ih =>
    have hstep : LayeredMemorySystem.consolidateStep rules now acc it0 =
        acc := by
      unfold LayeredMemorySystem.consolidateStep
      cases hf : rules.find?
          (fun r => decide (LayeredMemorySystem.ruleQualifies now it0
            r)) with
      | none => rfl
      | some r =>
        simp only
        rw [if_pos (h it0 (List.mem_cons_self _ _) (by rw [hf]; rfl))]
    rw [List.foldl_cons, hstep]
    exact ih (fun it hit hq => h it (List.mem_cons_of_mem _ hit) hq)

/-- C3 (amended): calling `consolidate` twice with no stores and no other
mutating operations in between leaves persistent memory unchanged on the
second call — in particular its item count never increases — provided no
item newly satisfies a consolidation rule between the calls (true
whenever both calls read the same clock): every item promoted by the
first call is found already present by id and is not promoted again. -/
theorem consolidate_idempotent (sys : LayeredMemorySystem) (now1 now2 : ℚ)
    (hmono : ∀ it ∈ sys.short_term.items, ∀ r ∈ sys.consolidation_rules,
      LayeredMemorySystem.ruleQualifies now2 it r →
      LayeredMemorySystem.ruleQualifies now1 it r) :
    ((sys.consolidate now1).1.consolidate now2).1.long_term =
      (sys.consolidate now1).1.long_term ∧
    ((sys.consolidate now1).1.consolidate now2).1.long_term.index.length =
      (sys.consolidate now1).1.long_term.index.length := by
  have hl1 : (sys.consolidate now1).1.long_term =
      (sys.short_term.items.foldl
        (LayeredMemorySystem.consolidateStep sys.consolidation_rules now1)
        (sys.long_term, 0)).1 := rfl
  have hnoop : sys.short_term.items.foldl
      (LayeredMemorySystem.consolidateStep sys.consolidation_rules now2)
      ((sys.consolidate now1).1.long_term, 0) =
      ((sys.consolidate now1).1.long_term, 0) := by
    apply consolidateFold_noop
    intro it hit hq
    obtain ⟨r, hr, hdec⟩ := List.find?_isSome.mp hq
    have hq1 : LayeredMemorySystem.ruleQualifies now1 it r :=
      hmono it hit r hr (by simpa using hdec)
    have hq1s : (sys.consolidation_rules.find?
        (fun r2 => decide (LayeredMemorySystem.ruleQualifies now1 it
          r2))).isSome = true :=
      List.find?_isSome.mpr ⟨r, hr, by simpa using hq1⟩
    rw [hl1]
    exact consolidateFold_covers _ now1 _ _ it hit hq1s
  have h2 : ((sys.consolidate now1).1.consolidate now2).1.long_term =
      (sys.short_term.items.foldl
        (LayeredMemorySystem.consolidateStep sys.consolidation_rules now2)
        ((sys.consolidate now1).1.long_term, 0)).1 := rfl
  rw [h2, hnoop]
  exact ⟨rfl, rfl⟩

end Nexus

namespace Nexus

/-- C3 (counterexample to the claim as stated): in the reachable state
`sysC3`, consolidating at minute 12 (age 0.2 h, below every rule's age
floor) promotes nothing, yet consolidating again at minute 60 with no
stores or other mutations in between promotes the item (now 1 h old), so
the second of two consecutive calls increases PersistentMemory's count
from 0 to 1. -/
theorem consolidate_idempotent_counterexample :
    (sysC3.consolidate 12).1.long_term.index.length = 0 ∧
    ((sysC3.consolidate 12).1.consolidate 60).1.long_term.index.length =
      1 := by
  constructor
  · norm_num [sysC3, LayeredMemorySystem.init, LayeredMemorySystem.store,
      LayeredMemorySystem.consolidate, LayeredMemorySystem.consolidateStep,
      LayeredMemorySystem.defaultRules, LayeredMemorySystem.ruleQualifies,
      ShortTermMemory.init, ShortTermMemory.store,
      ShortTermMemory.cleanupExpired, ShortTermMemory.retrieve,
      ShortTermMemory.bumpItem, ShortTermMemory.getAll, LongTermMemory.empty,
      LongTermMemory.store, mkItem, rtake, upsert, lookupId, keysOf,
      List.filter, List.foldl, List.find?]
  · norm_num [sysC3, LayeredMemorySystem.init, LayeredMemorySystem.store,
      LayeredMemorySystem.consolidate, LayeredMemorySystem.consolidateStep,
      LayeredMemorySystem.defaultRules, LayeredMemorySystem.ruleQualifies,
      ShortTermMemory.init, ShortTermMemory.store,
      ShortTermMemory.cleanupExpired, ShortTermMemory.retrieve,
      ShortTermMemory.bumpItem, ShortTermMemory.getAll, LongTermMemory.empty,
      LongTermMemory.store, mkItem, rtake, upsert, lookupId, keysOf,
      List.filter, List.foldl, List.find?]

/-- Witness for the amended C3: both calls on `sysC3` at the same instant
(minute 60) leave persistent memory unchanged on the second call. -/
theorem consolidate_idempotent_witness :
    ((sysC3.consolidate 60).1.consolidate 60).1.long_term =
      (sysC3.consolidate 60).1.long_term ∧
    ((sysC3.consolidate 60).1.consolidate 60).1.long_term.index.length =
      (sysC3.consolidate 60).1.long_term.index.length :=
  consolidate_idempotent sysC3 60 60 (fun _ _ _ _ hq => hq)

end Nexus

namespace Nexus

/-! ### Claim C8: index consistency as a preserved invariant -/

theorem mem_bucketGet_addFold (tags : List String)
    (ti : List (String × List String)) (x id t : String) :
    id ∈ bucketGet (tags.foldl (fun a b => bucketAdd a b x) ti) t ↔
      (t ∈ tags ∧ id = x) ∨ id ∈ bucketGet ti t := by
  induction tags generalizing ti with
  | nil => simp
  | cons t0 rest ih =>
    rw [List.foldl_cons, ih, mem_bucketGet_bucketAdd]
    simp only [List.mem_cons]
    constructor
    · rintro (⟨htr, rfl⟩ | ⟨rfl, rfl⟩ | hold)
      · exact Or.inl ⟨Or.inr htr, rfl⟩
      · exact Or.inl ⟨Or.inl rfl, rfl⟩
      · exact Or.inr hold
    · rintro (⟨(rfl | htr), rfl⟩ | hold)
      · exact Or.inr (Or.inl ⟨rfl, rfl⟩)
      · exact Or.inl ⟨htr, rfl⟩
      · exact Or.inr (Or.inr hold)

theorem mem_bucketGet_discardFold_iff (tags : List String)
    (ti : List (String × List String)) (x id t : String) :
    id ∈ bucketGet (tags.foldl (fun a b => bucketDiscard a b x) ti) t ↔
      id ∈ bucketGet ti t ∧ ¬(id = x ∧ t ∈ tags) := by
  induction tags generalizing ti with
  | nil => simp
  | cons t0 rest ih =>
    rw [List.foldl_cons, ih, mem_bucketGet_bucketDiscard]
    simp only [List.mem_cons]
    constructor
    · rintro ⟨⟨hb, hn0⟩, hnr⟩
      refine ⟨hb, ?_⟩
      rintro ⟨rfl, (rfl | htr)⟩
      · exact hn0 ⟨rfl, rfl⟩
      · exact hnr ⟨rfl, htr⟩
    · rintro ⟨hb, hn⟩
      refine ⟨⟨hb, ?_⟩, ?_⟩
      · rintro ⟨rfl, rfl⟩
        exact hn ⟨rfl, Or.inl rfl⟩
      · rintro ⟨rfl, htr⟩
        exact hn ⟨rfl, Or.inr htr⟩

theorem mem_bucketGet_tagFoldPrune (rem : List (String × MemoryItem))
    (ti : List (String × List String)) (id t : String) :
    id ∈ bucketGet (rem.foldl (fun a p =>
        p.2.tags.foldl (fun a2 t2 => bucketDiscard a2 t2 p.1) a) ti) t ↔
      id ∈ bucketGet ti t ∧ ¬(∃ p ∈ rem, p.1 = id ∧ t ∈ p.2.tags) := by
  induction rem generalizing ti with
  | nil => simp
  | cons q rest ih =>
    rw [List.foldl_cons, ih, mem_bucketGet_discardFold_iff]
    simp only [List.mem_cons]
    constructor
    · rintro ⟨⟨hb, hq⟩, hr⟩
      refine ⟨hb, ?_⟩
      rintro ⟨p, (rfl | hp), hpid, hpt⟩
      · exact hq ⟨hpid.symm, hpt⟩
      · exact hr ⟨p, hp, hpid, hpt⟩
    · rintro ⟨hb, hn⟩
      refine ⟨⟨hb, ?_⟩, ?_⟩
      · rintro ⟨rfl, htq⟩
        exact hn ⟨q, Or.inl rfl, rfl, htq⟩
      · rintro ⟨p, hp, hpid, hpt⟩
        exact hn ⟨p, Or.inr hp, hpid, hpt⟩

theorem mem_bucketGet_typeFoldPrune (rem : List (String × MemoryItem))
    (ti : List (String × List String)) (id t : String) :
    id ∈ bucketGet (rem.foldl (fun a p =>
        bucketDiscard a p.2.memory_type p.1) ti) t ↔
      id ∈ bucketGet ti t ∧
        ¬(∃ p ∈ rem, p.1 = id ∧ p.2.memory_type = t) := by
  induction rem generalizing ti with
  | nil => simp
  | cons q rest ih =>
    rw [List.foldl_cons, ih, mem_bucketGet_bucketDiscard]
    simp only [List.mem_cons]
    constructor
    · rintro ⟨⟨hb, hq⟩, hr⟩
      refine ⟨hb, ?_⟩
      rintro ⟨p, (rfl | hp), hpid, hpt⟩
      · exact hq ⟨hpt.symm, hpid.symm⟩
      · exact hr ⟨p, hp, hpid, hpt⟩
    · rintro ⟨hb, hn⟩
      refine ⟨⟨hb, ?_⟩, ?_⟩
      · rintro ⟨rfl, rfl⟩
        exact hn ⟨q, Or.inl rfl, rfl, rfl⟩
      · rintro ⟨p, hp, hpid, hpt⟩
        exact hn ⟨p, Or.inr hp, hpid, hpt⟩

theorem nodup_keysOf_upsert {α : Type} (m : List (String × α)) (k : String)
    (v : α) (h : (keysOf m).Nodup) : (keysOf (upsert m k v)).Nodup := by
  induction m with
  | nil => simp [upsert, keysOf]
  | cons p t ih =>
    simp only [keysOf, List.map_cons, List.nodup_cons] at h
    simp only [upsert]
    by_cases hp : p.1 = k
    · rw [if_pos hp]
      simp only [keysOf, List.map_cons, List.nodup_cons]
      exact ⟨fun hc => h.1 (hp ▸ hc), h.2⟩
    · rw [if_neg hp]
      simp only [keysOf, List.map_cons, List.nodup_cons]
      refine ⟨?_, ih h.2⟩
      intro hc
      rcases (mem_keysOf_upsert t k p.1 v).mp hc with hc1 | hc1
      · exact hp hc1
      · exact h.1 hc1

theorem nodup_keysOf_filter {α : Type} (m : List (String × α))
    (pred : String × α → Bool) (h : (keysOf m).Nodup) :
    (keysOf (m.filter pred)).Nodup := by
  unfold keysOf at h ⊢
  exact h.sublist (List.Sublist.map Prod.fst (List.filter_sublist m))

end Nexus

namespace Nexus

theorem lookupId_of_mem_nodup {α : Type} {m : List (String × α)}
    {k : String} {v : α} (hnd : (keysOf m).Nodup) (h : (k, v) ∈ m) :
    lookupId m k = some v := by
  induction m with
  | nil => simp at h
  | cons p t ih =>
    simp only [keysOf, List.map_cons, List.nodup_cons] at hnd
    simp only [lookupId]
    rcases List.mem_cons.mp h with he | ht
    · rw [if_pos (congrArg Prod.fst he).symm]
      rw [← he]
    · have hk : ¬ p.1 = k := by
        intro hc
        exact hnd.1 (hc ▸ List.mem_map.mpr ⟨(k, v), ht, rfl⟩)
      rw [if_neg hk]
      exact ih hnd.2 ht

theorem compat_of_inPool (pool : List MemoryItem)
    (hcompat : ∀ a ∈ pool, ∀ b ∈ pool, itemCompat a b)
    (a b : MemoryItem) (ha : inPool pool a) (hb : inPool pool b)
    (hid : a.memory_id = b.memory_id) :
    a.tags = b.tags ∧ a.memory_type = b.memory_type := by
  obtain ⟨sa, hsa, haid, hat, hak⟩ := ha
  obtain ⟨sb, hsb, hbid, hbt, hbk⟩ := hb
  have hsid : sa.memory_id = sb.memory_id := by
    rw [haid, hbid, hid]
  obtain ⟨ht, hk⟩ := hcompat sa hsa sb hsb hsid
  exact ⟨by rw [← hat, ← hbt, ht], by rw [← hak, ← hbk, hk]⟩

theorem tight_store_core (m m' : LongTermMemory) (item : MemoryItem)
    (hidx : m'.index = upsert m.index item.memory_id item)
    (htag : m'.tag_index = item.tags.foldl
      (fun ti tag => bucketAdd ti tag item.memory_id) m.tag_index)
    (htyp : m'.type_index =
      bucketAdd m.type_index item.memory_type item.memory_id)
    (ht : tightIndices m)
    (hcompat : ∀ it0, lookupId m.index item.memory_id = some it0 →
      it0.tags = item.tags ∧ it0.memory_type = item.memory_type) :
    tightIndices m' := by
  obtain ⟨htagi, htypi, hkm, hnd⟩ := ht
  refine ⟨?_, ?_, ?_, ?_⟩
  · intro t id
    rw [htag, hidx, mem_bucketGet_addFold]
    by_cases hid : id = item.memory_id
    · subst hid
      rw [lookupId_upsert_self]
      constructor
      · rintro (⟨htm, _⟩ | hold)
        · exact ⟨item, rfl, htm⟩
        · obtain ⟨it0, hl0, ht0⟩ := (htagi t item.memory_id).mp hold
          exact ⟨item, rfl, (hcompat it0 hl0).1 ▸ ht0⟩
      · rintro ⟨it', hit', ht'⟩
        have hii : it' = item := by
          injection hit' with hv
          exact hv.symm
        subst hii
        exact Or.inl ⟨ht', rfl⟩
    · rw [lookupId_upsert_ne _ _ _ _ hid]
      rw [← htagi t id]
      constructor
      · rintro (⟨_, hc⟩ | hold)
        · exact absurd hc hid
        · exact hold
      · exact Or.inr
  · intro k id
    rw [htyp, hidx, mem_bucketGet_bucketAdd]
    by_cases hid : id = item.memory_id
    · subst hid
      rw [lookupId_upsert_self]
      constructor
      · rintro (⟨hk, _⟩ | hold)
        · exact ⟨item, rfl, hk.symm⟩
        · obtain ⟨it0, hl0, ht0⟩ := (htypi k item.memory_id).mp hold
          exact ⟨item, rfl, (hcompat it0 hl0).2 ▸ ht0⟩
      · rintro ⟨it', hit', hk'⟩
        have hii : it' = item := by
          injection hit' with hv
          exact hv.symm
        subst hii
        exact Or.inl ⟨hk'.symm, rfl⟩
    · rw [lookupId_upsert_ne _ _ _ _ hid]
      rw [← htypi k id]
      constructor
      · rintro (⟨_, hc⟩ | hold)
        · exact absurd hc hid
        · exact hold
      · exact Or.inr
  · intro p hp
    rw [hidx] at hp
    rcases mem_upsert _ _ _ _ _ hp with hold | ⟨hk, hv⟩
    · exact hkm p hold
    · rw [hk, hv]
  · rw [hidx]
    exact nodup_keysOf_upsert _ _ _ hnd

theorem ltmInv_store (pool : List MemoryItem) (m : LongTermMemory)
    (item : MemoryItem)
    (hcompat : ∀ a ∈ pool, ∀ b ∈ pool, itemCompat a b)
    (hm : ltmInv pool m) (hip : item ∈ pool) :
    ltmInv pool (m.store item) := by
  obtain ⟨ht, hpi, hps⟩ := hm
  have hipP : inPool pool item := ⟨item, hip, rfl, rfl, rfl⟩
  refine ⟨?_, ?_, ?_⟩
  · apply tight_store_core m _ item rfl rfl rfl ht
    intro it0 hl0
    have h0m := lookupId_mem hl0
    have h0id : it0.memory_id = item.memory_id := (ht.2.2.1 _ h0m).symm
    have := compat_of_inPool pool hcompat it0 item (hpi _ h0m) hipP h0id
    exact this
  · intro p hp
    rcases mem_upsert _ _ _ _ _ hp with hold | ⟨_, hv⟩
    · exact hpi p hold
    · rw [hv]; exact hipP
  · intro p hp
    rcases mem_upsert _ _ _ _ _ hp with hold | ⟨hk, hv⟩
    · exact hps p hold
    · rw [hk, hv]; exact ⟨rfl, hipP⟩

end Nexus

namespace Nexus

theorem inPool_congr (pool : List MemoryItem) {a b : MemoryItem}
    (h : inPool pool a) (hid : b.memory_id = a.memory_id)
    (ht : b.tags = a.tags) (hk : b.memory_type = a.memory_type) :
    inPool pool b := by
  obtain ⟨src, hsrc, h1, h2, h3⟩ := h
  exact ⟨src, hsrc, by rw [h1, hid], by rw [h2, ht], by rw [h3, hk]⟩

end Nexus

namespace Nexus
theorem ltmInv_retrieve (pool : List MemoryItem) (m : LongTermMemory)
    (id : String) (now : ℚ) (hm : ltmInv pool m) :
    ltmInv pool (m.retrieve id now).2 := by
  obtain ⟨⟨htagi, htypi, hkm, hnd⟩, hpi, hps⟩ := hm
  cases hl : lookupId m.index id with
  | none =>
    have he : (m.retrieve id now).2 = m := by
      simp [LongTermMemory.retrieve, hl]
    rw [he]
    exact ⟨⟨htagi, htypi, hkm, hnd⟩, hpi, hps⟩
  | some it =>
    have he : (m.retrieve id now).2 =
        { m with
          index := upsert m.index id (LongTermMemory.bumpAccess it now)
          storage :=
            upsert m.storage id (LongTermMemory.bumpAccess it now) } := by
      simp [LongTermMemory.retrieve, hl]
    have hid : it.memory_id = id := (hkm _ (lookupId_mem hl)).symm
    have hipit : inPool pool it := hpi _ (lookupId_mem hl)
    have hipit2 : inPool pool (LongTermMemory.bumpAccess it now) :=
      inPool_congr pool hipit rfl rfl rfl
    rw [he]
    refine ⟨⟨?_, ?_, ?_, ?_⟩, ?_, ?_⟩
    · intro t idq
      show idq ∈ bucketGet m.tag_index t ↔ _
      by_cases hq : idq = id
      · subst hq
        rw [lookupId_upsert_self]
        constructor
        · intro hb
          obtain ⟨it0, hl0, ht0⟩ := (htagi t idq).mp hb
          rw [hl] at hl0
          have hie : it0 = it := by
            injection hl0 with hv
            exact hv.symm
          subst hie
          exact ⟨_, rfl, ht0⟩
        · rintro ⟨it', hit', ht'⟩
          have hie : it' = LongTermMemory.bumpAccess it now := by
            injection hit' with hv
            exact hv.symm
          subst hie
          exact (htagi t idq).mpr ⟨it, hl, ht'⟩
      · rw [lookupId_upsert_ne _ _ _ _ hq]
        exact htagi t idq
    · intro k idq
      show idq ∈ bucketGet m.type_index k ↔ _
      by_cases hq : idq = id
      · subst hq
        rw [lookupId_upsert_self]
        constructor
        · intro hb
          obtain ⟨it0, hl0, ht0⟩ := (htypi k idq).mp hb
          rw [hl] at hl0
          have hie : it0 = it := by
            injection hl0 with hv
            exact hv.symm
          subst hie
          exact ⟨_, rfl, ht0⟩
        · rintro ⟨it', hit', ht'⟩
          have hie : it' = LongTermMemory.bumpAccess it now := by
            injection hit' with hv
            exact hv.symm
          subst hie
          exact (htypi k idq).mpr ⟨it, hl, ht'⟩
      · rw [lookupId_upsert_ne _ _ _ _ hq]
        exact htypi k idq
    · intro p hp
      rcases mem_upsert _ _ _ _ _ hp with hold | ⟨hk, hv⟩
      · exact hkm p hold
      · rw [hk, hv]
        exact hid.symm
    · exact nodup_keysOf_upsert _ _ _ hnd
    · intro p hp
      rcases mem_upsert _ _ _ _ _ hp with hold | ⟨_, hv⟩
      · exact hpi p hold
      · rw [hv]
        exact hipit2
    · intro p hp
      rcases mem_upsert _ _ _ _ _ hp with hold | ⟨hk, hv⟩
      · exact hps p hold
      · rw [hk, hv]
        exact ⟨hid.symm, hipit2⟩

end Nexus

namespace Nexus

theorem ltmInv_prune (pool : List MemoryItem) (m : LongTermMemory)
    (mi : ℚ) (ma : Nat) (now : ℚ) (hm : ltmInv pool m) :
    ltmInv pool (m.prune mi ma now).1 := by
  obtain ⟨⟨htagi, htypi, hkm, hnd⟩, hpi, hps⟩ := hm
  have hidx : ((m.prune mi ma now).1).index =
      m.index.filter (fun p => decide (p.1 ∉ keysOf
        (m.index.filter (fun p2 =>
          decide (LongTermMemory.pruneCond mi ma now p2.2))))) := rfl
  have hsto : ((m.prune mi ma now).1).storage =
      m.storage.filter (fun p => decide (p.1 ∉ keysOf
        (m.index.filter (fun p2 =>
          decide (LongTermMemory.pruneCond mi ma now p2.2))))) := rfl
  have htagq : ((m.prune mi ma now).1).tag_index =
      (m.index.filter (fun p2 =>
        decide (LongTermMemory.pruneCond mi ma now p2.2))).foldl
        (fun a p => p.2.tags.foldl
          (fun a2 t2 => bucketDiscard a2 t2 p.1) a) m.tag_index := rfl
  have htypq : ((m.prune mi ma now).1).type_index =
      (m.index.filter (fun p2 =>
        decide (LongTermMemory.pruneCond mi ma now p2.2))).foldl
        (fun a p => bucketDiscard a p.2.memory_type p.1) m.type_index := rfl
  refine ⟨⟨?_, ?_, ?_, ?_⟩, ?_, ?_⟩
  · intro t idq
    rw [htagq, hidx, mem_bucketGet_tagFoldPrune]
    by_cases hin : idq ∈ keysOf (m.index.filter (fun p2 =>
        decide (LongTermMemory.pruneCond mi ma now p2.2)))
    · rw [lookupId_filter_key_none _ _
        (fun x => decide (x ∉ keysOf (m.index.filter (fun p2 =>
          decide (LongTermMemory.pruneCond mi ma now p2.2)))))
        (by simp [hin])]
      apply iff_of_false
      · rintro ⟨hb, hnp⟩
        obtain ⟨it0, hl0, ht0⟩ := (htagi t idq).mp hb
        obtain ⟨q, hq, hqid⟩ := List.mem_map.mp hin
        have hq2 : q.2 = it0 := by
          have hqm : q ∈ m.index := (List.mem_filter.mp hq).1
          have hqe : q = (idq, q.2) := by
            cases q; simp only at hqid; rw [hqid]
          exact nodup_keys_value_eq hnd (hqe ▸ hqm) (lookupId_mem hl0)
        exact hnp ⟨q, hq, hqid, by rw [hq2]; exact ht0⟩
      · rintro ⟨it', hit', _⟩
        exact Option.noConfusion hit'
    · rw [lookupId_filter_key_same _ _
        (fun x => decide (x ∉ keysOf (m.index.filter (fun p2 =>
          decide (LongTermMemory.pruneCond mi ma now p2.2)))))
        (by simpa using hin)]
      rw [← htagi t idq]
      constructor
      · rintro ⟨hb, _⟩
        exact hb
      · intro hb
        refine ⟨hb, ?_⟩
        rintro ⟨p, hp, hpid, _⟩
        exact hin (List.mem_map.mpr ⟨p, hp, hpid⟩)
  · intro k idq
    rw [htypq, hidx, mem_bucketGet_typeFoldPrune]
    by_cases hin : idq ∈ keysOf (m.index.filter (fun p2 =>
        decide (LongTermMemory.pruneCond mi ma now p2.2)))
    · rw [lookupId_filter_key_none _ _
        (fun x => decide (x ∉ keysOf (m.index.filter (fun p2 =>
          decide (LongTermMemory.pruneCond mi ma now p2.2)))))
        (by simp [hin])]
      apply iff_of_false
      · rintro ⟨hb, hnp⟩
        obtain ⟨it0, hl0, ht0⟩ := (htypi k idq).mp hb
        obtain ⟨q, hq, hqid⟩ := List.mem_map.mp hin
        have hq2 : q.2 = it0 := by
          have hqm : q ∈ m.index := (List.mem_filter.mp hq).1
          have hqe : q = (idq, q.2) := by
            cases q; simp only at hqid; rw [hqid]
          exact nodup_keys_value_eq hnd (hqe ▸ hqm) (lookupId_mem hl0)
        exact hnp ⟨q, hq, hqid, by rw [hq2]; exact ht0⟩
      · rintro ⟨it', hit', _⟩
        exact Option.noConfusion hit'
    · rw [lookupId_filter_key_same _ _
        (fun x => decide (x ∉ keysOf (m.index.filter (fun p2 =>
          decide (LongTermMemory.pruneCond mi ma now p2.2)))))
        (by simpa using hin)]
      rw [← htypi k idq]
      constructor
      · rintro ⟨hb, _⟩
        exact hb
      · intro hb
        refine ⟨hb, ?_⟩
        rintro ⟨p, hp, hpid, _⟩
        exact hin (List.mem_map.mpr ⟨p, hp, hpid⟩)
  · intro p hp
    rw [hidx] at hp
    exact hkm p (List.mem_filter.mp hp).1
  · rw [hidx]
    exact nodup_keysOf_filter _ _ hnd
  · intro p hp
    rw [hidx] at hp
    exact hpi p (List.mem_filter.mp hp).1
  · intro p hp
    rw [hsto] at hp
    exact hps p (List.mem_filter.mp hp).1

end Nexus

namespace Nexus

theorem loadFold_inv (pool : List MemoryItem)
    (hcompat : ∀ a ∈ pool, ∀ b ∈ pool, itemCompat a b)
    (entries : List (String × MemoryItem))
    (hent : ∀ p ∈ entries, inPool pool p.2) (acc : LongTermMemory)
    (hta : tightIndices acc) (hpa : ∀ p ∈ acc.index, inPool pool p.2) :
    tightIndices (entries.foldl
      (fun m p =>
        { m with
          index := upsert m.index p.2.memory_id p.2
          tag_index := p.2.tags.foldl
            (fun ti tag => bucketAdd ti tag p.2.memory_id) m.tag_index
          type_index :=
            bucketAdd m.type_index p.2.memory_type p.2.memory_id }) acc) ∧
    (∀ p ∈ (entries.foldl
      (fun m p =>
        { m with
          index := upsert m.index p.2.memory_id p.2
          tag_index := p.2.tags.foldl
            (fun ti tag => bucketAdd ti tag p.2.memory_id) m.tag_index
          type_index :=
            bucketAdd m.type_index p.2.memory_type p.2.memory_id })
      acc).index, inPool pool p.2) ∧
    (entries.foldl
      (fun m p =>
        { m with
          index := upsert m.index p.2.memory_id p.2
          tag_index := p.2.tags.foldl
            (fun ti tag => bucketAdd ti tag p.2.memory_id) m.tag_index
          type_index :=
            bucketAdd m.type_index p.2.memory_type p.2.memory_id })
      acc).storage = acc.storage := by
  induction entries generalizing acc with
  | nil => exact ⟨hta, hpa, rfl⟩
  | cons q rest ih =>
    rw [List.foldl_cons]
    have hq : inPool pool q.2 := hent q (List.mem_cons_self _ _)
    have hstep_t : tightIndices
        { acc with
          index := upsert acc.index q.2.memory_id q.2
          tag_index := q.2.tags.foldl
            (fun ti tag => bucketAdd ti tag q.2.memory_id) acc.tag_index
          type_index :=
            bucketAdd acc.type_index q.2.memory_type q.2.memory_id } := by
      apply tight_store_core acc _ q.2 rfl rfl rfl hta
      intro it0 hl0
      have h0id : it0.memory_id = q.2.memory_id :=
        (hta.2.2.1 _ (lookupId_mem hl0)).symm
      exact compat_of_inPool pool hcompat it0 q.2
        (hpa _ (lookupId_mem hl0)) hq h0id
    have hstep_p : ∀ p ∈ (upsert acc.index q.2.memory_id q.2),
        inPool pool p.2 := by
      intro p hp
      rcases mem_upsert _ _ _ _ _ hp with hold | ⟨_, hv⟩
      · exact hpa p hold
      · rw [hv]; exact hq
    exact ih (fun p hp => hent p (List.mem_cons_of_mem _ hp)) _
      hstep_t hstep_p

theorem ltmInv_load (pool : List MemoryItem)
    (hcompat : ∀ a ∈ pool, ∀ b ∈ pool, itemCompat a b)
    (m : LongTermMemory) (hm : ltmInv pool m) :
    ltmInv pool (LongTermMemory.load m.storage) := by
  obtain ⟨_, _, hps⟩ := hm
  have hbase : tightIndices
      { index := [], tag_index := [], type_index := [],
        storage := m.storage } := by
    refine ⟨?_, ?_, ?_, ?_⟩ <;> simp [bucketGet, lookupId, keysOf]
  obtain ⟨ht, hp, hs⟩ := loadFold_inv pool hcompat m.storage
    (fun p hp => (hps p hp).2)
    { index := [], tag_index := [], type_index := [], storage := m.storage }
    hbase (by simp)
  refine ⟨ht, hp, ?_⟩
  intro p hp2
  have hls : (LongTermMemory.load m.storage).storage = m.storage := hs
  rw [hls] at hp2
  exact hps p hp2

theorem ltmInv_empty (pool : List MemoryItem) :
    ltmInv pool LongTermMemory.empty := by
  refine ⟨⟨?_, ?_, ?_, ?_⟩, ?_, ?_⟩ <;>
    simp [LongTermMemory.empty, bucketGet, lookupId, keysOf]

theorem ltmInv_runOps (pool : List MemoryItem)
    (hcompat : ∀ a ∈ pool, ∀ b ∈ pool, itemCompat a b)
    (ops : List LtmOp) (hops : ∀ it ∈ storedItems ops, it ∈ pool)
    (m : LongTermMemory) (hm : ltmInv pool m) :
    ltmInv pool (runOps m ops) := by
  induction ops generalizing m with
  | nil => exact hm
  | cons op rest ih =>
    have hrest : ∀ it ∈ storedItems rest, it ∈ pool := by
      intro it hit
      apply hops
      cases op <;> simp [storedItems, List.filterMap_cons] at hit ⊢ <;>
        try exact Or.inr hit
      · exact hit
      · exact hit
      · exact hit
    have hstep : ltmInv pool (LtmOp.exec m op) := by
      cases op with
      | storeOp item =>
        apply ltmInv_store pool m item hcompat hm
        apply hops
        simp [storedItems, List.filterMap_cons]
      | retrieveOp id now => exact ltmInv_retrieve pool m id now hm
      | pruneOp mi ma now => exact ltmInv_prune pool m mi ma now hm
      | reload => exact ltmInv_load pool hcompat m hm
    exact ih hrest _ hstep

end Nexus

namespace Nexus

/-- C8 (amended): starting from an empty persistent memory, the spec's
index-consistency invariant — every bucket id is a key of the primary
map, and every indexed item's id sits in the bucket of each of its tags
and of its kind — holds after any sequence of store, retrieve, prune and
reload operations, provided any two stored items that share an id agree
on their tags and kind (in particular whenever no id is ever reused). -/
theorem persistentMemory_index_consistency (ops : List LtmOp)
    (hcompat : ∀ a ∈ storedItems ops, ∀ b ∈ storedItems ops,
      itemCompat a b) :
    consistentIndices (runOps LongTermMemory.empty ops) := by
  obtain ⟨⟨htagi, htypi, hkm, hnd⟩, _, _⟩ :=
    ltmInv_runOps (storedItems ops) hcompat ops (fun _ h => h)
      LongTermMemory.empty (ltmInv_empty _)
  refine ⟨?_, ?_, ?_⟩
  · intro t id hb
    obtain ⟨it, hl, _⟩ := (htagi t id).mp hb
    exact (lookupId_isSome_iff _ _).mp (by simp [hl])
  · intro k id hb
    obtain ⟨it, hl, _⟩ := (htypi k id).mp hb
    exact (lookupId_isSome_iff _ _).mp (by simp [hl])
  · intro p hp
    have hl : lookupId (runOps LongTermMemory.empty ops).index p.1 =
        some p.2 := lookupId_of_mem_nodup hnd hp
    exact ⟨fun t ht => (htagi t p.1).mpr ⟨p.2, hl, ht⟩,
      (htypi _ p.1).mpr ⟨p.2, hl, rfl⟩⟩

/-- C8 (counterexample to the claim as stated): storing id x under kind
a, overwriting it under kind b, then pruning it leaves x in the kind-a
bucket while x is gone from the primary map, so the consistency
invariant fails after this operation sequence. -/
theorem persistentMemory_index_consistency_counterexample :
    "x" ∈ bucketGet (runOps LongTermMemory.empty opsC8).type_index "a" ∧
    "x" ∉ keysOf (runOps LongTermMemory.empty opsC8).index ∧
    ¬ consistentIndices (runOps LongTermMemory.empty opsC8) := by
  have h1 : "x" ∈ bucketGet (runOps LongTermMemory.empty
      opsC8).type_index "a" := by
    norm_num [opsC8, itemA8, itemB8, runOps, LtmOp.exec,
      LongTermMemory.empty, LongTermMemory.store, LongTermMemory.prune,
      LongTermMemory.pruneCond, upsert, keysOf, bucketGet, bucketAdd,
      bucketDiscard, lookupId, List.filter, List.foldl]
  have h2 : "x" ∉ keysOf (runOps LongTermMemory.empty opsC8).index := by
    norm_num [opsC8, itemA8, itemB8, runOps, LtmOp.exec,
      LongTermMemory.empty, LongTermMemory.store, LongTermMemory.prune,
      LongTermMemory.pruneCond, upsert, keysOf, bucketGet, bucketAdd,
      bucketDiscard, lookupId, List.filter, List.foldl]
  exact ⟨h1, h2, fun hc => h2 (hc.2.1 "a" "x" h1)⟩

/-- Witness for the amended C8: a store / retrieve / prune sequence with
no id reuse keeps the indices consistent. -/
theorem persistentMemory_index_consistency_witness :
    consistentIndices (runOps LongTermMemory.empty opsW8) := by
  apply persistentMemory_index_consistency opsW8
  intro a ha b hb
  have ha2 : a = itemA8 := by
    simpa [opsW8, storedItems, List.filterMap_cons] using ha
  have hb2 : b = itemA8 := by
    simpa [opsW8, storedItems, List.filterMap_cons] using hb
  rw [ha2, hb2]
  exact fun _ => ⟨rfl, rfl⟩

end Nexus
